import Mathlib

/-!
# Verification of podminator's tree-reconciliation and session-state engine

This file gives a shallow embedding of the reconciliation core of the
podminator terminal dashboard (`utils.go` and `app_state.go`) and proves the
specified properties about it.

The embedding mirrors the Go source statement by statement:

* `fetchNamespacesWithPods` embeds the function of the same name; the
  Kubernetes API calls (`Namespaces().List`, the dynamic pod-metadata list)
  are abstracted as a `K8sApi` oracle whose answers are `Except`-valued,
  exactly the shape of the Go client results.
* `TreeNode`/`TreeList` embed `tview.TreeNode` values: text, expanded flag,
  attached `PartialObjectMetadata` reference (namespace/name pair, `PodMeta`
  here), and children.  tview nodes are expanded by default, so every
  constructor site uses `true` unless the source calls `SetExpanded`.
* `recordNode`/`recordListExp` embed `recordExpansionState` (the level-1 walk
  writing into `namespaceExpansionState`).
* `restoreNode`/`restoreList`/`scanPods`/`findMatchIn` embed the nested
  `findPodNode` closure of `restorePreviousSelection` together with the
  in-place `SetExpanded(true)`/`SetCurrentNode` mutations it performs; the
  pure version returns the updated tree and the found pod node.
* `updatePodTreeView` embeds the function of the same name as a state
  transformer `EngineState → EngineState × Option String` (new state plus
  the returned error, partial mutations included, exactly as the imperative
  code leaves them).
* `contextSelectHandler` / `namespaceSelectHandler` embed the state effects
  of the corresponding handlers (client construction is abstracted as an
  `Except`-valued `connect` outcome; UI widgets are not modelled).
-/

set_option maxHeartbeats 1000000

/-- Pod identity attached to pod tree nodes: the namespace/name pair of the
`metav1.PartialObjectMetadata` reference used by the Go code. -/
structure PodMeta where
  name : String
  ns : String
  deriving DecidableEq, Repr

/-- `map[string]bool` (`namespaceExpansionState`): association list with
Go-map update semantics (`insertB` overwrites in place, appends new keys). -/
abbrev ExpMap := List (String × Bool)

/-- Go map read `m[k]`. -/
def lookupB : ExpMap → String → Option Bool
  | [], _ => none
  | (k, v) :: t, x => if k == x then some v else lookupB t x

/-- Go map write `m[k] = v`. -/
def insertB : ExpMap → String → Bool → ExpMap
  | [], k, v => [(k, v)]
  | (k', v') :: t, k, v => if k' == k then (k, v) :: t else (k', v') :: insertB t k v

/-- `map[string][]metav1.PartialObjectMetadata` (`namespacesWithPods`). -/
abbrev NsMap := List (String × List PodMeta)

/-- Go map read on the namespace→pods map. -/
def lookupPods : NsMap → String → Option (List PodMeta)
  | [], _ => none
  | (k, v) :: t, x => if k == x then some v else lookupPods t x

/-- Go map write on the namespace→pods map. -/
def insertPods : NsMap → String → List PodMeta → NsMap
  | [], k, v => [(k, v)]
  | (k', v') :: t, k, v => if k' == k then (k, v) :: t else (k', v') :: insertPods t k v

/-- Keys of the namespace→pods map (`for nsName := range namespacesWithPods`). -/
def keysOf : NsMap → List String
  | [] => []
  | e :: t => e.1 :: keysOf t

/-- Lexicographic (byte-order) comparison on character lists; mirrors the
ordering used by Go's `sort.Strings`. -/
def charsLe : List Char → List Char → Bool
  | [], _ => true
  | _ :: _, [] => false
  | a :: as, b :: bs =>
    if a.toNat < b.toNat then true
    else if b.toNat < a.toNat then false
    else charsLe as bs

/-- Insertion step of the string sort. -/
def insertSortedStr (x : String) : List String → List String
  | [] => [x]
  | y :: t => if charsLe x.data y.data then x :: y :: t else y :: insertSortedStr x t

/-- `sort.Strings`: lexicographically ascending sort of namespace names. -/
def sortStrings (l : List String) : List String := l.foldr insertSortedStr []

/-- `strings.ToLower` on the character level (ASCII case folding, which is
what all pod-name comparisons in scope exercise). -/
def lowerChars (s : String) : List Char := s.data.map Char.toLower

/-- Whether `needle` is a prefix of the second list. -/
def charsHavePref : List Char → List Char → Bool
  | [], _ => true
  | _ :: _, [] => false
  | a :: as, b :: bs => a == b && charsHavePref as bs

/-- Whether `needle` occurs as a contiguous substring. -/
def charsContain (needle : List Char) : List Char → Bool
  | [] => charsHavePref needle []
  | c :: t => charsHavePref needle (c :: t) || charsContain needle t

/-- `strings.Contains(strings.ToLower(hay), strings.ToLower(q))`: the
case-insensitive substring test applied to pod names. -/
def strContainsCI (hay q : String) : Bool := charsContain (lowerChars q) (lowerChars hay)

/-- The Kubernetes API surface used by `fetchNamespacesWithPods`:
`Namespaces().List` and the per-namespace pod-metadata list
(`fetchPodMetadataList`), each of which either fails or returns data. -/
structure K8sApi where
  namespacesList : Except String (List String)
  podsList : String → Except String (List PodMeta)

/-- Real pod listings return pods that live in the queried namespace; the
`PartialObjectMetadata.Namespace` field matches the namespace asked for. -/
def apiWellFormed (api : K8sApi) : Prop :=
  ∀ n pods, api.podsList n = .ok pods → ∀ p ∈ pods, p.ns = n

/-- Fetch-result invariant: every entry's pods carry the entry's namespace. -/
def resWellFormed (res : NsMap) : Prop :=
  ∀ n pods, lookupPods res n = some pods → ∀ p ∈ pods, p.ns = n

/-- Fetch-result invariant: no entry has an empty pod list. -/
def resNonempty (res : NsMap) : Prop :=
  ∀ n pods, lookupPods res n = some pods → pods ≠ []

/-- The `for _, ns := range namespaceList.Items` loop of the `all` branch:
a per-namespace pod-list failure hits `continue` (the namespace is skipped),
an empty pod list is skipped, otherwise `namespacesWithPods[nsName] = pods`. -/
def collectAll (api : K8sApi) : List String → NsMap → NsMap
  | [], acc => acc
  | n :: t, acc =>
    match api.podsList n with
    | .error _ => collectAll api t acc
    | .ok pods => collectAll api t (if pods.length > 0 then insertPods acc n pods else acc)

/-- One entry of the search filter: keep the pods whose (lowercased) name
contains the (lowercased) query, drop the namespace if none match. -/
def filterEntry (q : String) (e : String × List PodMeta) : Option (String × List PodMeta) :=
  let matching := e.2.filter (fun p => strContainsCI p.name q)
  if matching.isEmpty then none else some (e.1, matching)

/-- The `if searchQuery != ""` block of `fetchNamespacesWithPods`: per
namespace, replace the pod list by the matching pods or delete the entry. -/
def applyQueryFilter (q : String) (m : NsMap) : NsMap :=
  if q == "" then m else m.filterMap (filterEntry q)

/-- `fetchNamespacesWithPods` (utils.go): `all` scope lists namespaces and
collects per-namespace pods, skipping failures; single scope is fatal on
failure; entries are only created for non-empty pod lists; then the search
filter runs. -/
def fetchNamespacesWithPods (sel q : String) (api : K8sApi) : Except String NsMap :=
  let base : Except String NsMap :=
    if sel == "all" then
      match api.namespacesList with
      | .error e => .error e
      | .ok nss => .ok (collectAll api nss [])
    else
      match api.podsList sel with
      | .error e => .error e
      | .ok pods => .ok (if pods.length > 0 then [(sel, pods)] else [])
  match base with
  | .error e => .error e
  | .ok m => .ok (applyQueryFilter q m)

mutual
/-- `tview.TreeNode`: text, expanded flag, attached pod reference, children.
tview nodes are created expanded (`NewTreeNode` sets `expanded: true`). -/
inductive TreeNode where
  | mk (text : String) (expanded : Bool) (ref : Option PodMeta) (children : TreeList)
/-- Children list of a `tview.TreeNode`. -/
inductive TreeList where
  | nil
  | cons (head : TreeNode) (tail : TreeList)
end

/-- `GetText`. -/
def TreeNode.text : TreeNode → String
  | .mk t _ _ _ => t

/-- `IsExpanded`. -/
def TreeNode.expanded : TreeNode → Bool
  | .mk _ e _ _ => e

/-- `GetReference` (type-asserted to `*PartialObjectMetadata`). -/
def TreeNode.ref : TreeNode → Option PodMeta
  | .mk _ _ r _ => r

/-- `GetChildren`. -/
def TreeNode.children : TreeNode → TreeList
  | .mk _ _ _ c => c

/-- `SetExpanded`. -/
def TreeNode.withExpanded : TreeNode → Bool → TreeNode
  | .mk t _ r cs, b => .mk t b r cs

/-- View of a children list as a plain list, for stating properties. -/
def TreeList.toList : TreeList → List TreeNode
  | .nil => []
  | .cons h t => h :: TreeList.toList t

/-- Texts of the nodes of a children list. -/
def textsTL (cs : TreeList) : List String := cs.toList.map TreeNode.text

mutual
/-- `recordExpansionState` on one node: at tree level 1 (direct children of
the root, i.e. namespace nodes) record `text ↦ expanded`, then walk the
children. -/
def recordNode (lvl : Nat) (m : ExpMap) : TreeNode → ExpMap
  | .mk t e _ cs => recordListExp (lvl + 1) (if lvl == 1 then insertB m t e else m) cs
/-- `recordExpansionState` folded over a children list. -/
def recordListExp (lvl : Nat) (m : ExpMap) : TreeList → ExpMap
  | .nil => m
  | .cons c t => recordListExp lvl (recordNode lvl m c) t
end

/-- The expanded/collapsed flag the record walk ends up storing for `x`: the
flag of the last level-1 node whose text is `x` (later nodes overwrite). -/
def lastFlagIn : TreeList → String → Option Bool
  | .nil, _ => none
  | .cons c t, x =>
    match lastFlagIn t x with
    | some b => some b
    | none => if c.text == x then some c.expanded else none

/-- Flag of the first node with text `x` in a children list (in the trees the
engine builds, namespace texts are distinct, so first = only). -/
def flagInTL : TreeList → String → Option Bool
  | .nil, _ => none
  | .cons c t, x => if c.text == x then some c.expanded else flagInTL t x

/-- Pod nodes built by `updatePodTreeView`: text is the pod name, reference
is the pod metadata, no children, expanded by default. -/
def buildPodNodes : List PodMeta → TreeList
  | [] => .nil
  | p :: ps => .cons (.mk p.name true (some p) .nil) (buildPodNodes ps)

/-- The `"No matching pods found"` informational leaf. -/
def infoLeaf : TreeNode := .mk "No matching pods found" true none .nil

/-- A namespace node: expansion flag from `namespaceExpansionState` when
present, collapsed otherwise; a single `"Pods"` grouping child, expanded. -/
def nsNodeFor (m : ExpMap) (n : String) (pods : List PodMeta) : TreeNode :=
  .mk n ((lookupB m n).getD false) none
    (.cons (.mk "Pods" true none (buildPodNodes pods)) .nil)

/-- The `for _, nsName := range namespaceNames` loop adding one namespace
node per (sorted) namespace name. -/
def buildChildren (m : ExpMap) (res : NsMap) : List String → TreeList
  | [] => .nil
  | n :: t => .cons (nsNodeFor m n ((lookupPods res n).getD [])) (buildChildren m res t)

/-- The tree built by `updatePodTreeView` from a fetch result: root
`"Namespaces"`, one node per sorted namespace, and the informational leaf
when there are no children. -/
def buildTree (m : ExpMap) (res : NsMap) : TreeNode :=
  match buildChildren m res (sortStrings (keysOf res)) with
  | .nil => .mk "Namespaces" true none (.cons infoLeaf .nil)
  | .cons c t => .mk "Namespaces" true none (.cons c t)

/-- The reference test inside `findPodNode`:
`podMeta.Namespace == namespace && podMeta.Name == podName`. -/
def podRefMatches (pns pname : String) (n : TreeNode) : Bool :=
  match n.ref with
  | some p => p.ns == pns && p.name == pname
  | none => false

/-- The inner loop of `findPodNode` over the children of a `"Pods"` node:
first pod whose reference matches. -/
def findMatchIn (pns pname : String) : TreeList → Option TreeNode
  | .nil => none
  | .cons c t => if podRefMatches pns pname c then some c else findMatchIn pns pname t

/-- The `for _, child := range node.GetChildren()` loop of the text-matched
branch of `findPodNode`: scan for `"Pods"` children holding a matching pod;
on success the `"Pods"` node is the one `SetExpanded(true)` later hits, so
the pure version returns the list with that node expanded plus the pod. -/
def scanPods (pns pname : String) : TreeList → Option (TreeList × TreeNode)
  | .nil => none
  | .cons c t =>
    if c.text == "Pods" then
      match findMatchIn pns pname c.children with
      | some pod => some (.cons (c.withExpanded true) t, pod)
      | none =>
        match scanPods pns pname t with
        | some r => some (.cons c r.1, r.2)
        | none => none
    else
      match scanPods pns pname t with
      | some r => some (.cons c r.1, r.2)
      | none => none

mutual
/-- `findPodNode` plus the `SetExpanded(true)` calls of
`restorePreviousSelection`, as a pure transformation: on a text match scan
that node's children for the pod (no recursion below a text-matched node,
exactly as in the source); otherwise recurse into the children.  Returns
the updated node and the found pod node, or `none` when the pod is absent
(in which case the source mutates nothing). -/
def restoreNode (pns pname : String) : TreeNode → Option (TreeNode × TreeNode)
  | .mk t e r cs =>
    if t == pns then
      match scanPods pns pname cs with
      | some sc => some (.mk t true r sc.1, sc.2)
      | none => none
    else
      match restoreList pns pname cs with
      | some rc => some (.mk t e r rc.1, rc.2)
      | none => none
/-- The recursive loop of `findPodNode` over a children list: first child in
which the pod is found wins; siblings are untouched. -/
def restoreList (pns pname : String) : TreeList → Option (TreeList × TreeNode)
  | .nil => none
  | .cons c t =>
    match restoreNode pns pname c with
    | some rc => some (.cons rc.1 t, rc.2)
    | none =>
      match restoreList pns pname t with
      | some rt => some (.cons c rt.1, rt.2)
      | none => none
end

/-- `restorePreviousSelection`: only acts when both identity components are
non-empty; on a find it returns the mutated root and makes the pod node
current, otherwise the root stays current (it was just set by
`SetCurrentNode(rootNode)`). -/
def restorePreviousSelection (root : TreeNode) (pns pname : String) : TreeNode × TreeNode :=
  if pname = "" ∨ pns = "" then (root, root)
  else
    match restoreNode pns pname root with
    | some rc => (rc.1, rc.2)
    | none => (root, root)

/-- The slice of `AppState` the reconciliation engine reads and writes:
readiness (`k8sClientsReady` closed), context and namespace selection, the
expansion map, the displayed tree root and the current node. -/
structure EngineState where
  ready : Bool
  selectedContext : String
  selectedNamespace : String
  searchText : String
  expState : ExpMap
  treeRoot : Option TreeNode
  current : Option TreeNode

/-- The `if existingRoot != nil { recordExpansionState(existingRoot) }` step:
the expansion map after recording the old tree. -/
def recordedMap (st : EngineState) : ExpMap :=
  match st.treeRoot with
  | some r => recordNode 0 st.expState r
  | none => st.expState

/-- Extraction of the prior selection from the current node's reference
(empty strings when the current node carries no pod reference). -/
def priorSelectionOf (st : EngineState) : String × String :=
  match st.current with
  | some n =>
    match n.ref with
    | some p => (p.ns, p.name)
    | none => ("", "")
  | none => ("", "")

/-- The publish phase of `updatePodTreeView`: build the fresh tree from the
fetch result, `SetRoot`/`SetCurrentNode(root)`, then restore the previous
selection.  (Split out because the Go code runs it after the fetch returns,
on whatever the shared state then is.) -/
def applyFetched (st : EngineState) (pns pname : String) (res : NsMap) : EngineState :=
  let root := buildTree st.expState res
  let rc := restorePreviousSelection root pns pname
  { st with treeRoot := some rc.1, current := some rc.2 }

/-- `updatePodTreeView`: readiness gate, record the old tree's expansion
state, capture the prior selection, fetch, then rebuild and restore.  The
returned `Option String` is the function's error result. -/
def updatePodTreeView (st : EngineState) (q : String) (api : K8sApi) :
    EngineState × Option String :=
  if st.ready then
    let st1 : EngineState := { st with expState := recordedMap st }
    let pr := priorSelectionOf st
    match fetchNamespacesWithPods st.selectedNamespace q api with
    | .error e => (st1, some e)
    | .ok res => (applyFetched st1 pr.1 pr.2 res, none)
  else (st, some "Kubernetes clients are not initialized yet")

/-- The `"Please select a namespace to load pods"` prompt root. -/
def promptRoot : TreeNode := .mk "Please select a namespace to load pods" true none .nil

/-- `namespaceSelectHandler`: set the namespace selection, clear the search
text, either show the prompt root or refresh, then
`SetCurrentNode(GetRoot())`. -/
def namespaceSelectHandler (st : EngineState) (opt : String) (api : K8sApi) : EngineState :=
  let st1 : EngineState := { st with selectedNamespace := opt, searchText := "" }
  if opt == "Select a namespace" then
    { st1 with treeRoot := some promptRoot, current := some promptRoot }
  else
    let st2 := (updatePodTreeView st1 "" api).1
    { st2 with current := st2.treeRoot }

/-- `contextSelectHandler`'s state effect: the context selection is stored,
and when the client construction chain (`connect`) succeeds, the handler
swaps the client handles (abstracted away: later fetches are given the new
`K8sApi`) and resets `namespaceExpansionState` to a fresh empty map.  On a
construction failure the goroutine returns early and the map survives. -/
def contextSelectHandler (st : EngineState) (opt : String) (connect : Except String Unit) :
    EngineState :=
  let st1 : EngineState := { st with selectedContext := opt }
  match connect with
  | .error _ => st1
  | .ok _ => { st1 with expState := [] }

/-- `true` when the fetch result contains a pod with the given identity
(namespace key present and some pod of that entry has the name). -/
def hasPodIn (res : NsMap) (pns pname : String) : Bool :=
  match lookupPods res pns with
  | some pods => pods.any (fun p => p.name == pname)
  | none => false

/-- The tree with the namespace node named `x` force-expanded (the effect of
a successful `restorePreviousSelection` on a freshly built tree, where the
`"Pods"` grouping node is already expanded). -/
def expandNsTL : TreeList → String → TreeList
  | .nil, _ => .nil
  | .cons c t, x => .cons (if c.text == x then c.withExpanded true else c) (expandNsTL t x)

/-- `expandNsTL` applied below the root. -/
def expandNsRoot (r : TreeNode) (x : String) : TreeNode :=
  .mk r.text r.expanded r.ref (expandNsTL r.children x)

/-- Decidable check used to state the restored-selection invariant: some
namespace child has text `pns`, is expanded, and its expanded `"Pods"`
child holds a pod node whose reference is `(pns, pname)`. -/
def anyTL (p : TreeNode → Bool) : TreeList → Bool
  | .nil => false
  | .cons c t => p c || anyTL p t

/-- The expanded ancestor chain down to the restored pod exists in `T`. -/
def expandedChainOK (T : TreeNode) (pns pname : String) : Bool :=
  anyTL (fun c => c.text == pns && c.expanded &&
    anyTL (fun g => g.text == "Pods" && g.expanded &&
      anyTL (fun pd => podRefMatches pns pname pd) g.children) c.children) T.children

/-! ## Association-list map lemmas -/

theorem lookupB_insertB_self (m : ExpMap) (k : String) (v : Bool) :
    lookupB (insertB m k v) k = some v := by
  induction m with
  | nil => simp [insertB, lookupB]
  | cons e t ih =>
    obtain ⟨k', v'⟩ := e
    by_cases h : k' = k <;> simp [insertB, lookupB, h, ih]

theorem lookupB_insertB_ne (m : ExpMap) (k x : String) (v : Bool) (h : k ≠ x) :
    lookupB (insertB m k v) x = lookupB m x := by
  induction m with
  | nil => simp [insertB, lookupB, h]
  | cons e t ih =>
    obtain ⟨k', v'⟩ := e
    by_cases h' : k' = k <;> simp [insertB, lookupB, h', h, ih]

theorem insertB_of_lookup_eq (m : ExpMap) (k : String) (v : Bool)
    (h : lookupB m k = some v) : insertB m k v = m := by
  induction m with
  | nil => simp [lookupB] at h
  | cons e t ih =>
    obtain ⟨k', v'⟩ := e
    by_cases h' : k' = k
    · subst h'
      simp [lookupB] at h
      simp [insertB, h]
    · simp [lookupB, h'] at h
      simp [insertB, h', ih h]

theorem lookupB_insertB_isSome (m : ExpMap) (k x : String) (v : Bool)
    (h : (lookupB m x).isSome) : (lookupB (insertB m k v) x).isSome := by
  by_cases hk : k = x
  · subst hk; simp [lookupB_insertB_self]
  · rwa [lookupB_insertB_ne m k x v hk]

theorem lookupPods_insertPods_self (m : NsMap) (k : String) (v : List PodMeta) :
    lookupPods (insertPods m k v) k = some v := by
  induction m with
  | nil => simp [insertPods, lookupPods]
  | cons e t ih =>
    obtain ⟨k', v'⟩ := e
    by_cases h : k' = k <;> simp [insertPods, lookupPods, h, ih]

theorem lookupPods_insertPods_ne (m : NsMap) (k x : String) (v : List PodMeta) (h : k ≠ x) :
    lookupPods (insertPods m k v) x = lookupPods m x := by
  induction m with
  | nil => simp [insertPods, lookupPods, h]
  | cons e t ih =>
    obtain ⟨k', v'⟩ := e
    by_cases h' : k' = k <;> simp [insertPods, lookupPods, h', h, ih]

theorem keysOf_insertPods (m : NsMap) (k : String) (v : List PodMeta) :
    keysOf (insertPods m k v) = if k ∈ keysOf m then keysOf m else keysOf m ++ [k] := by
  induction m with
  | nil => simp [insertPods, keysOf]
  | cons e t ih =>
    obtain ⟨k', v'⟩ := e
    by_cases h : k' = k
    · subst h
      simp [insertPods, keysOf]
    · have h2 : ¬(k = k') := fun hh => h hh.symm
      simp only [insertPods, keysOf, List.mem_cons, beq_iff_eq, if_neg h, ih]
      by_cases hk : k ∈ keysOf t <;> simp [hk, h2]

theorem nodup_keysOf_insertPods (m : NsMap) (k : String) (v : List PodMeta)
    (h : (keysOf m).Nodup) : (keysOf (insertPods m k v)).Nodup := by
  rw [keysOf_insertPods]
  by_cases hk : k ∈ keysOf m
  · simpa [hk]
  · simpa [hk, List.nodup_append] using h

theorem lookupPods_isSome_iff_mem_keysOf (m : NsMap) (x : String) :
    (lookupPods m x).isSome ↔ x ∈ keysOf m := by
  induction m with
  | nil => simp [lookupPods, keysOf]
  | cons e t ih =>
    obtain ⟨k', v'⟩ := e
    by_cases h : k' = x
    · subst h
      simp [lookupPods, keysOf]
    · have h2 : ¬(x = k') := fun hh => h hh.symm
      simp [lookupPods, keysOf, h, h2, ih]

/-! ## Sorting lemmas (only membership and distinctness are needed) -/

theorem mem_insertSortedStr (x a : String) (l : List String) :
    a ∈ insertSortedStr x l ↔ a = x ∨ a ∈ l := by
  induction l with
  | nil => simp [insertSortedStr]
  | cons y t ih =>
    by_cases h : charsLe x.data y.data = true
    · simp [insertSortedStr, h]
    · simp only [insertSortedStr, h, Bool.false_eq_true, if_false, List.mem_cons, ih]
      tauto

theorem nodup_insertSortedStr (x : String) (l : List String) (hx : x ∉ l) (h : l.Nodup) :
    (insertSortedStr x l).Nodup := by
  induction l with
  | nil => simp [insertSortedStr]
  | cons y t ih =>
    have hx1 : x ≠ y := fun e => hx (e ▸ List.mem_cons_self x t)
    have hx2 : x ∉ t := fun e => hx (List.mem_cons_of_mem y e)
    rcases List.nodup_cons.mp h with ⟨hyt, ht⟩
    by_cases hc : charsLe x.data y.data = true
    · simp only [insertSortedStr, hc, if_true]
      exact List.nodup_cons.mpr ⟨hx, h⟩
    · simp only [insertSortedStr, hc, Bool.false_eq_true, if_false]
      refine List.nodup_cons.mpr ⟨?_, ih hx2 ht⟩
      rw [mem_insertSortedStr]
      rintro (e | e)
      · exact hx1 e.symm
      · exact hyt e

theorem mem_sortStrings (a : String) (l : List String) :
    a ∈ sortStrings l ↔ a ∈ l := by
  induction l with
  | nil => simp [sortStrings]
  | cons y t ih =>
    show a ∈ insertSortedStr y (sortStrings t) ↔ _
    simp [mem_insertSortedStr, ih]

theorem nodup_sortStrings (l : List String) (h : l.Nodup) : (sortStrings l).Nodup := by
  induction l with
  | nil => simp [sortStrings]
  | cons y t ih =>
    simp at h
    show (insertSortedStr y (sortStrings t)).Nodup
    exact nodup_insertSortedStr y _ (fun hy => h.1 ((mem_sortStrings y t).1 hy)) (ih h.2)

/-! ## The record walk: characterization of `recordExpansionState` -/

mutual
theorem recordNode_deep (lvl : Nat) (h : 2 ≤ lvl) (m : ExpMap) :
    ∀ n : TreeNode, recordNode lvl m n = m
  | .mk t e r cs => by
    have hlvl : (lvl == 1) = false := by
      simp only [beq_eq_false_iff_ne]; omega
    rw [recordNode, hlvl]
    exact recordListExp_deep (lvl + 1) (by omega) m cs
theorem recordListExp_deep (lvl : Nat) (h : 2 ≤ lvl) (m : ExpMap) :
    ∀ cs : TreeList, recordListExp lvl m cs = m
  | .nil => rfl
  | .cons c t => by
    rw [recordListExp, recordNode_deep lvl h m c]
    exact recordListExp_deep lvl h m t
end

theorem recordNode_one (m : ExpMap) (c : TreeNode) :
    recordNode 1 m c = insertB m c.text c.expanded := by
  obtain ⟨t, e, r, cs⟩ := c
  rw [recordNode]
  simp only [TreeNode.text, TreeNode.expanded]
  exact recordListExp_deep 2 (by omega) _ cs

theorem lookupB_recordListExp_one (x : String) : ∀ (m : ExpMap) (cs : TreeList),
    lookupB (recordListExp 1 m cs) x =
      match lastFlagIn cs x with
      | some b => some b
      | none => lookupB m x
  | m, .nil => by simp [recordListExp, lastFlagIn]
  | m, .cons c t => by
    rw [recordListExp, recordNode_one,
      lookupB_recordListExp_one x (insertB m c.text c.expanded) t]
    cases hft : lastFlagIn t x with
    | some b => simp [lastFlagIn, hft]
    | none =>
      simp only [lastFlagIn, hft]
      by_cases hx : c.text = x
      · simp [hx, lookupB_insertB_self]
      · simp [hx, lookupB_insertB_ne m c.text x c.expanded hx]

theorem lookupB_recordNode_zero (m : ExpMap) (n : TreeNode) (x : String) :
    lookupB (recordNode 0 m n) x =
      match lastFlagIn n.children x with
      | some b => some b
      | none => lookupB m x := by
  obtain ⟨t, e, r, cs⟩ := n
  rw [recordNode]
  simp only [TreeNode.children]
  exact lookupB_recordListExp_one x m cs

theorem lookupB_recordNode_zero_isSome (m : ExpMap) (n : TreeNode) (x : String)
    (h : (lookupB m x).isSome) : (lookupB (recordNode 0 m n) x).isSome := by
  rw [lookupB_recordNode_zero]
  cases hf : lastFlagIn n.children x with
  | some b => simp
  | none => simpa

theorem lookupB_recordedMap_isSome (st : EngineState) (x : String)
    (h : (lookupB st.expState x).isSome) : (lookupB (recordedMap st) x).isSome := by
  rw [recordedMap]
  cases hr : st.treeRoot with
  | none => exact h
  | some r => exact lookupB_recordNode_zero_isSome _ r x h

/-! ## Fetch lemmas: `collectAll`, the query filter, and `fetchNamespacesWithPods` -/

theorem lookupPods_collectAll_notmem (api : K8sApi) (l : List String) (acc : NsMap)
    (x : String) (hx : x ∉ l) :
    lookupPods (collectAll api l acc) x = lookupPods acc x := by
  induction l generalizing acc with
  | nil => rfl
  | cons n t ih =>
    have hxt : x ∉ t := fun e => hx (List.mem_cons_of_mem n e)
    have hxn : n ≠ x := fun e => hx (e ▸ List.mem_cons_self n t)
    rw [collectAll]
    cases hp : api.podsList n with
    | error e => exact ih _ hxt
    | ok pods =>
      rw [ih _ hxt]
      by_cases hl : pods.length > 0
      · simp [hl, lookupPods_insertPods_ne acc n x pods hxn]
      · simp [hl]

theorem lookupPods_collectAll_mem (api : K8sApi) (l : List String) (acc : NsMap)
    (x : String) (hnd : l.Nodup) (hx : x ∈ l) :
    lookupPods (collectAll api l acc) x =
      match api.podsList x with
      | .ok pods => if pods.length > 0 then some pods else lookupPods acc x
      | .error _ => lookupPods acc x := by
  induction l generalizing acc with
  | nil => simp at hx
  | cons n t ih =>
    rcases List.nodup_cons.mp hnd with ⟨hnt, ht⟩
    by_cases hxn : x = n
    · subst hxn
      rw [collectAll]
      cases hp : api.podsList x with
      | error e => rw [lookupPods_collectAll_notmem api t acc x hnt]
      | ok pods =>
        rw [lookupPods_collectAll_notmem api t _ x hnt]
        by_cases hl : pods.length > 0
        · simp [hl, lookupPods_insertPods_self]
        · simp [hl]
    · have hxt : x ∈ t := (List.mem_cons.mp hx).resolve_left hxn
      rw [collectAll]
      cases hp : api.podsList n with
      | error e => exact ih acc ht hxt
      | ok pods =>
        rw [ih _ ht hxt]
        by_cases hl : pods.length > 0
        · simp [hl, lookupPods_insertPods_ne acc n x pods (fun e => hxn e.symm)]
        · simp [hl]

theorem nodup_keysOf_collectAll (api : K8sApi) (l : List String) (acc : NsMap)
    (h : (keysOf acc).Nodup) : (keysOf (collectAll api l acc)).Nodup := by
  induction l generalizing acc with
  | nil => exact h
  | cons n t ih =>
    rw [collectAll]
    cases hp : api.podsList n with
    | error e => exact ih _ h
    | ok pods =>
      by_cases hl : pods.length > 0
      · simp only [hl, if_true]
        exact ih _ (nodup_keysOf_insertPods acc n pods h)
      · simp only [hl, if_false]
        exact ih _ h

theorem resWellFormed_collectAll (api : K8sApi) (hapi : apiWellFormed api)
    (l : List String) (acc : NsMap) (h : resWellFormed acc) :
    resWellFormed (collectAll api l acc) := by
  induction l generalizing acc with
  | nil => exact h
  | cons n t ih =>
    rw [collectAll]
    cases hp : api.podsList n with
    | error e => exact ih _ h
    | ok pods =>
      by_cases hl : pods.length > 0
      · simp only [hl, if_true]
        refine ih _ ?_
        intro n' pods' hlk p hp'
        by_cases hn : n = n'
        · subst hn
          rw [lookupPods_insertPods_self] at hlk
          cases hlk
          exact hapi n pods hp p hp'
        · rw [lookupPods_insertPods_ne acc n n' pods hn] at hlk
          exact h n' pods' hlk p hp'
      · simp only [hl, if_false]
        exact ih _ h

theorem resNonempty_collectAll (api : K8sApi) (l : List String) (acc : NsMap)
    (h : resNonempty acc) : resNonempty (collectAll api l acc) := by
  induction l generalizing acc with
  | nil => exact h
  | cons n t ih =>
    rw [collectAll]
    cases hp : api.podsList n with
    | error e => exact ih _ h
    | ok pods =>
      by_cases hl : pods.length > 0
      · simp only [hl, if_true]
        refine ih _ ?_
        intro n' pods' hlk
        by_cases hn : n = n'
        · subst hn
          rw [lookupPods_insertPods_self] at hlk
          cases hlk
          exact List.length_pos.mp hl
        · rw [lookupPods_insertPods_ne acc n n' pods hn] at hlk
          exact h n' pods' hlk
      · simp only [hl, if_false]
        exact ih _ h

theorem mem_keysOf_filterMap (q : String) (m : NsMap) (x : String)
    (h : x ∈ keysOf (m.filterMap (filterEntry q))) : x ∈ keysOf m := by
  induction m with
  | nil => simpa using h
  | cons e t ih =>
    obtain ⟨k, v⟩ := e
    rw [List.filterMap_cons] at h
    cases hfe : filterEntry q (k, v) with
    | none =>
      rw [hfe] at h
      exact List.mem_cons_of_mem _ (ih h)
    | some e' =>
      rw [hfe] at h
      have hk : e'.1 = k := by
        unfold filterEntry at hfe
        by_cases he : (List.filter (fun p => strContainsCI p.name q) v).isEmpty = true <;>
          simp [he] at hfe
        rw [← hfe]
      rcases List.mem_cons.mp (by simpa [keysOf] using h) with h1 | h1
      · exact List.mem_cons.mpr (Or.inl (h1.trans hk))
      · exact List.mem_cons_of_mem _ (ih (by simpa [keysOf] using h1))

theorem nodup_keysOf_filterMap (q : String) (m : NsMap)
    (h : (keysOf m).Nodup) : (keysOf (m.filterMap (filterEntry q))).Nodup := by
  induction m with
  | nil => simp [keysOf]
  | cons e t ih =>
    obtain ⟨k, v⟩ := e
    rcases List.nodup_cons.mp (by simpa [keysOf] using h) with ⟨hk, ht⟩
    rw [List.filterMap_cons]
    cases hfe : filterEntry q (k, v) with
    | none => exact ih ht
    | some e' =>
      have hke : e'.1 = k := by
        unfold filterEntry at hfe
        by_cases he : (List.filter (fun p => strContainsCI p.name q) v).isEmpty = true <;>
          simp [he] at hfe
        rw [← hfe]
      show (e'.1 :: keysOf (t.filterMap (filterEntry q))).Nodup
      refine List.nodup_cons.mpr ⟨fun hmem => ?_, ih ht⟩
      exact hk (hke ▸ mem_keysOf_filterMap q t e'.1 hmem)

theorem lookupPods_filterMap (q : String) (m : NsMap) (x : String)
    (hnd : (keysOf m).Nodup) :
    lookupPods (m.filterMap (filterEntry q)) x =
      match lookupPods m x with
      | some pods =>
        if (pods.filter (fun p => strContainsCI p.name q)).isEmpty then none
        else some (pods.filter (fun p => strContainsCI p.name q))
      | none => none := by
  induction m with
  | nil => rfl
  | cons e t ih =>
    obtain ⟨k, v⟩ := e
    rcases List.nodup_cons.mp (by simpa [keysOf] using hnd) with ⟨hk, ht⟩
    rw [List.filterMap_cons]
    by_cases hx : k = x
    · subst hx
      have hlk : lookupPods ((k, v) :: t) k = some v := by simp [lookupPods]
      rw [hlk]
      cases hfe : filterEntry q (k, v) with
      | none =>
        unfold filterEntry at hfe
        by_cases he : (List.filter (fun p => strContainsCI p.name q) v).isEmpty = true <;>
          simp [he] at hfe ⊢
        have : k ∉ keysOf (t.filterMap (filterEntry q)) :=
          fun hmem => hk (mem_keysOf_filterMap q t k hmem)
        have h2 := (lookupPods_isSome_iff_mem_keysOf (t.filterMap (filterEntry q)) k)
        cases hres : lookupPods (t.filterMap (filterEntry q)) k with
        | none => rfl
        | some r => exact absurd (h2.mp (by simp [hres])) this
      | some e' =>
        unfold filterEntry at hfe
        by_cases he : (List.filter (fun p => strContainsCI p.name q) v).isEmpty = true <;>
          simp [he] at hfe ⊢
        rw [← hfe]
        simp [lookupPods]
    · have hlk : lookupPods ((k, v) :: t) x = lookupPods t x := by simp [lookupPods, hx]
      rw [hlk, ← ih ht]
      cases hfe : filterEntry q (k, v) with
      | none => rfl
      | some e' =>
        have hke : e'.1 = k := by
          unfold filterEntry at hfe
          by_cases he : (List.filter (fun p => strContainsCI p.name q) v).isEmpty = true <;>
            simp [he] at hfe
          rw [← hfe]
        obtain ⟨k', v'⟩ := e'
        simp only at hke
        subst hke
        simp [lookupPods, hx]

theorem applyQueryFilter_eq (q : String) (m : NsMap) :
    applyQueryFilter q m = if q = "" then m else m.filterMap (filterEntry q) := by
  unfold applyQueryFilter
  by_cases h : q = "" <;> simp [h]

theorem nodup_keysOf_applyQueryFilter (q : String) (m : NsMap)
    (h : (keysOf m).Nodup) : (keysOf (applyQueryFilter q m)).Nodup := by
  rw [applyQueryFilter_eq]
  by_cases hq : q = ""
  · simpa [hq]
  · simpa [hq] using nodup_keysOf_filterMap q m h

theorem lookupPods_applyQueryFilter (q : String) (m : NsMap) (x : String)
    (hq : q ≠ "") (hnd : (keysOf m).Nodup) :
    lookupPods (applyQueryFilter q m) x =
      match lookupPods m x with
      | some pods =>
        if (pods.filter (fun p => strContainsCI p.name q)).isEmpty then none
        else some (pods.filter (fun p => strContainsCI p.name q))
      | none => none := by
  rw [applyQueryFilter_eq, if_neg hq]
  exact lookupPods_filterMap q m x hnd

theorem resWellFormed_applyQueryFilter (q : String) (m : NsMap)
    (hnd : (keysOf m).Nodup) (h : resWellFormed m) :
    resWellFormed (applyQueryFilter q m) := by
  by_cases hq : q = ""
  · rw [applyQueryFilter_eq, if_pos hq]; exact h
  · intro n pods hlk p hp
    rw [lookupPods_applyQueryFilter q m n hq hnd] at hlk
    cases hbase : lookupPods m n with
    | none => rw [hbase] at hlk; cases hlk
    | some pods0 =>
      rw [hbase] at hlk
      by_cases he : (pods0.filter (fun p => strContainsCI p.name q)).isEmpty = true <;>
        simp [he] at hlk
      cases hlk
      exact h n pods0 hbase p (List.mem_of_mem_filter hp)

theorem resNonempty_applyQueryFilter (q : String) (m : NsMap)
    (hnd : (keysOf m).Nodup) (h : resNonempty m) :
    resNonempty (applyQueryFilter q m) := by
  by_cases hq : q = ""
  · rw [applyQueryFilter_eq, if_pos hq]; exact h
  · intro n pods hlk
    rw [lookupPods_applyQueryFilter q m n hq hnd] at hlk
    cases hbase : lookupPods m n with
    | none => rw [hbase] at hlk; cases hlk
    | some pods0 =>
      rw [hbase] at hlk
      by_cases he : (pods0.filter (fun p => strContainsCI p.name q)).isEmpty = true <;>
        simp [he] at hlk
      cases hlk
      exact fun hnil => he (by simp [hnil])

theorem fetch_all_ok (q : String) (api : K8sApi) (nss : List String)
    (hns : api.namespacesList = .ok nss) :
    fetchNamespacesWithPods "all" q api = .ok (applyQueryFilter q (collectAll api nss [])) := by
  unfold fetchNamespacesWithPods
  rw [hns]
  rfl

theorem fetch_all_error (q : String) (api : K8sApi) (e : String)
    (hns : api.namespacesList = .error e) :
    fetchNamespacesWithPods "all" q api = .error e := by
  unfold fetchNamespacesWithPods
  rw [hns]
  rfl

theorem fetch_single_ok (sel q : String) (api : K8sApi) (pods : List PodMeta)
    (hsel : sel ≠ "all") (hp : api.podsList sel = .ok pods) :
    fetchNamespacesWithPods sel q api =
      .ok (applyQueryFilter q (if pods.length > 0 then [(sel, pods)] else [])) := by
  unfold fetchNamespacesWithPods
  rw [if_neg (by simpa using hsel), hp]

theorem fetch_single_error (sel q : String) (api : K8sApi) (e : String)
    (hsel : sel ≠ "all") (hp : api.podsList sel = .error e) :
    fetchNamespacesWithPods sel q api = .error e := by
  unfold fetchNamespacesWithPods
  rw [if_neg (by simpa using hsel), hp]

theorem fetch_ok_cases (sel q : String) (api : K8sApi) (res : NsMap)
    (h : fetchNamespacesWithPods sel q api = .ok res) :
    (sel = "all" ∧ ∃ nss, api.namespacesList = .ok nss ∧
        res = applyQueryFilter q (collectAll api nss [])) ∨
    (sel ≠ "all" ∧ ∃ pods, api.podsList sel = .ok pods ∧
        res = applyQueryFilter q (if pods.length > 0 then [(sel, pods)] else [])) := by
  by_cases hsel : sel = "all"
  · left
    refine ⟨hsel, ?_⟩
    subst hsel
    cases hns : api.namespacesList with
    | error e =>
      rw [fetch_all_error q api e hns] at h
      cases h
    | ok nss =>
      rw [fetch_all_ok q api nss hns] at h
      cases h
      exact ⟨nss, rfl, rfl⟩
  · right
    refine ⟨hsel, ?_⟩
    cases hp : api.podsList sel with
    | error e =>
      rw [fetch_single_error sel q api e hsel hp] at h
      cases h
    | ok pods =>
      rw [fetch_single_ok sel q api pods hsel hp] at h
      cases h
      exact ⟨pods, rfl, rfl⟩

theorem fetch_base_single_nodup (sel : String) (pods : List PodMeta) :
    (keysOf (if pods.length > 0 then [(sel, pods)] else [])).Nodup := by
  by_cases hl : pods.length > 0 <;> simp [hl, keysOf]

theorem fetch_ok_invariants (sel q : String) (api : K8sApi) (res : NsMap)
    (hapi : apiWellFormed api) (h : fetchNamespacesWithPods sel q api = .ok res) :
    (keysOf res).Nodup ∧ resWellFormed res ∧ resNonempty res := by
  rcases fetch_ok_cases sel q api res h with ⟨hsel, nss, hns, hres⟩ | ⟨hsel, pods, hp, hres⟩
  · subst hres
    have hnd : (keysOf (collectAll api nss [])).Nodup :=
      nodup_keysOf_collectAll api nss [] (by simp [keysOf])
    refine ⟨nodup_keysOf_applyQueryFilter q _ hnd, ?_, ?_⟩
    · refine resWellFormed_applyQueryFilter q _ hnd ?_
      exact resWellFormed_collectAll api hapi nss [] (fun n pods hlk => by cases hlk)
    · refine resNonempty_applyQueryFilter q _ hnd ?_
      exact resNonempty_collectAll api nss [] (fun n pods hlk => by cases hlk)
  · subst hres
    have hnd := fetch_base_single_nodup sel pods
    refine ⟨nodup_keysOf_applyQueryFilter q _ hnd, ?_, ?_⟩
    · refine resWellFormed_applyQueryFilter q _ hnd ?_
      intro n pods' hlk p hp'
      by_cases hl : pods.length > 0
      · simp only [hl, if_true, lookupPods] at hlk
        by_cases hn : sel = n
        · subst hn
          simp at hlk
          cases hlk
          exact hapi sel pods hp p hp'
        · simp [hn] at hlk
      · simp [hl, lookupPods] at hlk
    · refine resNonempty_applyQueryFilter q _ hnd ?_
      intro n pods' hlk
      by_cases hl : pods.length > 0
      · simp only [hl, if_true, lookupPods] at hlk
        by_cases hn : sel = n
        · subst hn
          simp at hlk
          cases hlk
          exact List.length_pos.mp hl
        · simp [hn] at hlk
      · simp [hl, lookupPods] at hlk

/-! ## Built-tree structure lemmas -/

theorem textsTL_buildChildren (m : ExpMap) (res : NsMap) (names : List String) :
    textsTL (buildChildren m res names) = names := by
  induction names with
  | nil => rfl
  | cons n t ih =>
    simp only [buildChildren, textsTL, TreeList.toList, List.map_cons] at ih ⊢
    rw [ih]
    rfl

theorem flagInTL_buildChildren_mem (m : ExpMap) (res : NsMap) (names : List String)
    (x : String) (hx : x ∈ names) :
    flagInTL (buildChildren m res names) x = some ((lookupB m x).getD false) := by
  induction names with
  | nil => simp at hx
  | cons n t ih =>
    by_cases hn : n = x
    · subst hn
      simp [buildChildren, flagInTL, nsNodeFor, TreeNode.text, TreeNode.expanded]
    · have hxt : x ∈ t := (List.mem_cons.mp hx).resolve_left (fun e => hn e.symm)
      simp [buildChildren, flagInTL, nsNodeFor, TreeNode.text, hn, ih hxt]

theorem flagInTL_buildChildren_notmem (m : ExpMap) (res : NsMap) (names : List String)
    (x : String) (hx : x ∉ names) :
    flagInTL (buildChildren m res names) x = none := by
  induction names with
  | nil => rfl
  | cons n t ih =>
    have h1 : n ≠ x := fun e => hx (e ▸ List.mem_cons_self n t)
    have h2 : x ∉ t := fun e => hx (List.mem_cons_of_mem n e)
    simp [buildChildren, flagInTL, nsNodeFor, TreeNode.text, h1, ih h2]

theorem expandNsTL_id (x : String) : ∀ cs : TreeList, x ∉ textsTL cs → expandNsTL cs x = cs
  | .nil, _ => rfl
  | .cons c t, h => by
    have h1 : c.text ≠ x := fun e => h (by simp [textsTL, TreeList.toList, e])
    have h2 : x ∉ textsTL t := fun e => h (by
      simp only [textsTL, TreeList.toList, List.map_cons, List.mem_cons]
      exact Or.inr (by simpa [textsTL] using e))
    rw [expandNsTL, expandNsTL_id x t h2, if_neg (by simpa using h1)]

/-! ## `restorePreviousSelection` on freshly built trees -/

theorem findMatchIn_buildPodNodes (pns pname : String) (pods : List PodMeta)
    (hw : ∀ p ∈ pods, p.ns = pns) :
    findMatchIn pns pname (buildPodNodes pods) =
      if pods.any (fun p => p.name == pname) then
        some (.mk pname true (some ⟨pname, pns⟩) .nil)
      else none := by
  induction pods with
  | nil => simp [buildPodNodes, findMatchIn]
  | cons p ps ih =>
    obtain ⟨pn, pn2⟩ := p
    have hpns : pn2 = pns := hw ⟨pn, pn2⟩ (List.mem_cons_self _ _)
    subst hpns
    have hrest := ih (fun p hp => hw p (List.mem_cons_of_mem _ hp))
    by_cases hn : pn = pname
    · subst hn
      simp [buildPodNodes, findMatchIn, podRefMatches, TreeNode.ref]
    · simp [buildPodNodes, findMatchIn, podRefMatches, TreeNode.ref, hn, hrest]

theorem scanPods_buildPodNodes (pns pname : String) (pods : List PodMeta) :
    scanPods pns pname (buildPodNodes pods) = none := by
  induction pods with
  | nil => rfl
  | cons p ps ih =>
    simp only [buildPodNodes, scanPods, TreeNode.text]
    by_cases h : p.name = "Pods"
    · simp [h, TreeNode.children, findMatchIn, ih]
    · simp [h, ih]

theorem restoreNode_leaf (pns pname t : String) (e : Bool) (r : Option PodMeta) :
    restoreNode pns pname (.mk t e r .nil) = none := by
  rw [restoreNode]
  by_cases h : t = pns
  · simp [h, scanPods]
  · simp [h, restoreList]

theorem restoreList_buildPodNodes (pns pname : String) (pods : List PodMeta) :
    restoreList pns pname (buildPodNodes pods) = none := by
  induction pods with
  | nil => rfl
  | cons p ps ih => simp [buildPodNodes, restoreList, restoreNode_leaf, ih]

theorem restoreNode_grouping (pns pname : String) (pods : List PodMeta) :
    restoreNode pns pname (.mk "Pods" true none (buildPodNodes pods)) = none := by
  rw [restoreNode]
  by_cases h : "Pods" = pns
  · simp [h, scanPods_buildPodNodes]
  · simp [h, restoreList_buildPodNodes]

theorem restoreNode_nsNodeFor_ne (pns pname : String) (m : ExpMap) (n : String)
    (pods : List PodMeta) (hne : n ≠ pns) :
    restoreNode pns pname (nsNodeFor m n pods) = none := by
  rw [nsNodeFor, restoreNode]
  simp [hne, restoreList, restoreNode_grouping]

theorem restoreNode_nsNodeFor_self (pns pname : String) (m : ExpMap)
    (pods : List PodMeta) (hw : ∀ p ∈ pods, p.ns = pns) :
    restoreNode pns pname (nsNodeFor m pns pods) =
      if pods.any (fun p => p.name == pname) then
        some ((nsNodeFor m pns pods).withExpanded true,
          .mk pname true (some ⟨pname, pns⟩) .nil)
      else none := by
  rw [nsNodeFor, restoreNode]
  simp only [beq_self_eq_true, if_true]
  by_cases hany : pods.any (fun p => p.name == pname) = true
  · simp [scanPods, TreeNode.text, TreeNode.children,
      findMatchIn_buildPodNodes pns pname pods hw, hany, TreeNode.withExpanded, nsNodeFor]
  · simp [scanPods, TreeNode.text, TreeNode.children,
      findMatchIn_buildPodNodes pns pname pods hw, hany, nsNodeFor]

theorem restoreList_buildChildren_notmem (pns pname : String) (m : ExpMap) (res : NsMap)
    (names : List String) (hx : pns ∉ names) :
    restoreList pns pname (buildChildren m res names) = none := by
  induction names with
  | nil => rfl
  | cons n t ih =>
    have h1 : n ≠ pns := fun e => hx (e ▸ List.mem_cons_self n t)
    have h2 : pns ∉ t := fun e => hx (List.mem_cons_of_mem n e)
    simp [buildChildren, restoreList, restoreNode_nsNodeFor_ne pns pname m n _ h1, ih h2]

theorem restoreList_buildChildren_mem (pns pname : String) (m : ExpMap) (res : NsMap)
    (names : List String) (hnd : names.Nodup) (hmem : pns ∈ names)
    (hw : ∀ p ∈ (lookupPods res pns).getD [], p.ns = pns) :
    restoreList pns pname (buildChildren m res names) =
      if ((lookupPods res pns).getD []).any (fun p => p.name == pname) then
        some (expandNsTL (buildChildren m res names) pns,
          .mk pname true (some ⟨pname, pns⟩) .nil)
      else none := by
  induction names with
  | nil => simp at hmem
  | cons n t ih =>
    rcases List.nodup_cons.mp hnd with ⟨hnt, ht⟩
    by_cases hn : n = pns
    · subst hn
      have hid : expandNsTL (buildChildren m res t) n = buildChildren m res t :=
        expandNsTL_id n _ (by rw [textsTL_buildChildren]; exact hnt)
      rw [buildChildren, restoreList, restoreNode_nsNodeFor_self n pname m _ hw]
      by_cases hany : ((lookupPods res n).getD []).any (fun p => p.name == pname) = true
      · rw [if_pos hany, if_pos hany, expandNsTL]
        simp [nsNodeFor, TreeNode.text, TreeNode.withExpanded, hid]
      · rw [if_neg hany, if_neg hany,
          restoreList_buildChildren_notmem n pname m res t hnt]
    · have hmem2 : pns ∈ t := (List.mem_cons.mp hmem).resolve_left (fun e => hn e.symm)
      rw [buildChildren, restoreList, restoreNode_nsNodeFor_ne pns pname m n _ hn,
        ih ht hmem2]
      by_cases hany : ((lookupPods res pns).getD []).any (fun p => p.name == pname) = true
      · rw [if_pos hany, if_pos hany, expandNsTL]
        simp [nsNodeFor, TreeNode.text, hn]
      · rw [if_neg hany, if_neg hany]

theorem scanPods_buildChildren (pns pname : String) (m : ExpMap) (res : NsMap)
    (names : List String) :
    scanPods pns pname (buildChildren m res names) = none := by
  induction names with
  | nil => rfl
  | cons n t ih =>
    simp only [buildChildren, scanPods, nsNodeFor, TreeNode.text]
    by_cases h : n = "Pods"
    · simp [h, TreeNode.children, findMatchIn, podRefMatches, TreeNode.ref, ih]
    · simp [h, ih]

theorem restoreNode_buildTree_root (pname : String) (m : ExpMap) (res : NsMap) :
    restoreNode "Namespaces" pname (buildTree m res) = none := by
  rw [buildTree]
  cases hbc : buildChildren m res (sortStrings (keysOf res)) with
  | nil =>
    rw [restoreNode]
    simp [scanPods, TreeNode.text, infoLeaf]
  | cons c t =>
    rw [restoreNode]
    simp only [beq_self_eq_true, if_true]
    rw [← hbc, scanPods_buildChildren]

theorem restoreNode_buildTree (pns pname : String) (m : ExpMap) (res : NsMap)
    (hroot : pns ≠ "Namespaces") (hnd : (keysOf res).Nodup) (hw : resWellFormed res) :
    restoreNode pns pname (buildTree m res) =
      if hasPodIn res pns pname then
        some (expandNsRoot (buildTree m res) pns, .mk pname true (some ⟨pname, pns⟩) .nil)
      else none := by
  have hne : ¬ (("Namespaces" : String) == pns) = true := by
    simp only [beq_iff_eq]
    exact fun e => hroot e.symm
  have hndn : (sortStrings (keysOf res)).Nodup := nodup_sortStrings _ hnd
  by_cases hmem : pns ∈ sortStrings (keysOf res)
  · have hmemk : pns ∈ keysOf res := (mem_sortStrings pns (keysOf res)).mp hmem
    have hsome : (lookupPods res pns).isSome :=
      (lookupPods_isSome_iff_mem_keysOf res pns).mpr hmemk
    obtain ⟨pods0, hpods0⟩ := Option.isSome_iff_exists.mp hsome
    have hw0 : ∀ p ∈ (lookupPods res pns).getD [], p.ns = pns := by
      rw [hpods0]
      exact hw pns pods0 hpods0
    have hrl := restoreList_buildChildren_mem pns pname m res _ hndn hmem hw0
    have hhas : hasPodIn res pns pname =
        ((lookupPods res pns).getD []).any (fun p => p.name == pname) := by
      rw [hasPodIn, hpods0]
      rfl
    cases hbc : buildChildren m res (sortStrings (keysOf res)) with
    | nil =>
      exfalso
      have hts := textsTL_buildChildren m res (sortStrings (keysOf res))
      rw [hbc] at hts
      rw [← hts] at hmem
      simp [textsTL, TreeList.toList] at hmem
    | cons c t =>
      rw [buildTree, hbc, restoreNode, if_neg hne]
      rw [hbc] at hrl
      rw [hrl, hhas]
      by_cases hany : ((lookupPods res pns).getD []).any (fun p => p.name == pname) = true
      · rw [if_pos hany, if_pos hany]
        simp [expandNsRoot, TreeNode.text, TreeNode.expanded, TreeNode.ref, TreeNode.children]
      · rw [if_neg hany, if_neg hany]
  · have hnotk : pns ∉ keysOf res := fun e => hmem ((mem_sortStrings pns (keysOf res)).mpr e)
    have hnone : lookupPods res pns = none := by
      cases hlp : lookupPods res pns with
      | none => rfl
      | some r =>
        exact absurd ((lookupPods_isSome_iff_mem_keysOf res pns).mp (by simp [hlp])) hnotk
    have hhas : hasPodIn res pns pname = false := by rw [hasPodIn, hnone]
    rw [hhas, if_neg (by simp)]
    cases hbc : buildChildren m res (sortStrings (keysOf res)) with
    | nil =>
      rw [buildTree, hbc, restoreNode, if_neg hne]
      simp [restoreList, restoreNode_leaf, infoLeaf]
    | cons c t =>
      rw [buildTree, hbc, restoreNode, if_neg hne]
      rw [← hbc, restoreList_buildChildren_notmem pns pname m res _ hmem]

theorem restorePrev_built_skip (m : ExpMap) (res : NsMap) (pns pname : String)
    (h : pname = "" ∨ pns = "") :
    restorePreviousSelection (buildTree m res) pns pname =
      (buildTree m res, buildTree m res) := by
  rw [restorePreviousSelection, if_pos h]

theorem restorePrev_built_found (m : ExpMap) (res : NsMap) (pns pname : String)
    (hroot : pns ≠ "Namespaces") (hnd : (keysOf res).Nodup) (hw : resWellFormed res)
    (hn1 : pname ≠ "") (hn2 : pns ≠ "") (hhas : hasPodIn res pns pname = true) :
    restorePreviousSelection (buildTree m res) pns pname =
      (expandNsRoot (buildTree m res) pns, .mk pname true (some ⟨pname, pns⟩) .nil) := by
  rw [restorePreviousSelection, if_neg (by tauto),
    restoreNode_buildTree pns pname m res hroot hnd hw, if_pos hhas]

theorem restorePrev_built_fallback (m : ExpMap) (res : NsMap) (pns pname : String)
    (hnd : (keysOf res).Nodup) (hw : resWellFormed res)
    (h : pns = "Namespaces" ∨ hasPodIn res pns pname = false) :
    restorePreviousSelection (buildTree m res) pns pname =
      (buildTree m res, buildTree m res) := by
  rw [restorePreviousSelection]
  by_cases hskip : pname = "" ∨ pns = ""
  · rw [if_pos hskip]
  · rw [if_neg hskip]
    by_cases hroot : pns = "Namespaces"
    · subst hroot
      rw [restoreNode_buildTree_root]
    · rcases h with h | h
      · exact absurd h hroot
      · rw [restoreNode_buildTree pns pname m res hroot hnd hw, h]
        simp

/-! ## Equations for `updatePodTreeView` -/

theorem updatePodTreeView_notready (st : EngineState) (q : String) (api : K8sApi)
    (h : st.ready = false) :
    updatePodTreeView st q api = (st, some "Kubernetes clients are not initialized yet") := by
  rw [updatePodTreeView, h]
  rfl

theorem updatePodTreeView_fetchError (st : EngineState) (q : String) (api : K8sApi)
    (e : String) (hready : st.ready = true)
    (hfetch : fetchNamespacesWithPods st.selectedNamespace q api = .error e) :
    updatePodTreeView st q api = ({ st with expState := recordedMap st }, some e) := by
  rw [updatePodTreeView, hready]
  simp only [if_true]
  rw [hfetch]

theorem updatePodTreeView_ok (st : EngineState) (q : String) (api : K8sApi) (res : NsMap)
    (hready : st.ready = true)
    (hfetch : fetchNamespacesWithPods st.selectedNamespace q api = .ok res) :
    updatePodTreeView st q api =
      ({ st with
          expState := recordedMap st
          treeRoot := some (restorePreviousSelection (buildTree (recordedMap st) res)
            (priorSelectionOf st).1 (priorSelectionOf st).2).1
          current := some (restorePreviousSelection (buildTree (recordedMap st) res)
            (priorSelectionOf st).1 (priorSelectionOf st).2).2 }, none) := by
  rw [updatePodTreeView, hready]
  simp only [if_true]
  rw [hfetch]
  rfl

/-! ## Claim theorems -/

/-- C5: invoking the refresh/fetch pipeline before the readiness signal has
fired returns the "not initialized" error immediately and performs no
mutation of the tree, the selection, or the expansion state. -/
theorem not_ready_no_mutation (st : EngineState) (q : String) (api : K8sApi)
    (h : st.ready = false) :
    updatePodTreeView st q api = (st, some "Kubernetes clients are not initialized yet") ∧
    (updatePodTreeView st q api).1.treeRoot = st.treeRoot ∧
    (updatePodTreeView st q api).1.current = st.current ∧
    (updatePodTreeView st q api).1.expState = st.expState := by
  rw [updatePodTreeView_notready st q api h]
  exact ⟨rfl, rfl, rfl, rfl⟩

theorem not_ready_no_mutation_witness :
    (({ ready := false
        selectedContext := "A"
        selectedNamespace := "a"
        searchText := ""
        expState := [("a", true)]
        treeRoot := none
        current := none } : EngineState)).ready = false ∧
    (updatePodTreeView
        { ready := false
          selectedContext := "A"
          selectedNamespace := "a"
          searchText := ""
          expState := [("a", true)]
          treeRoot := none
          current := none } "q"
        ⟨.ok [], fun _ => .ok []⟩ =
      ({ ready := false
         selectedContext := "A"
         selectedNamespace := "a"
         searchText := ""
         expState := [("a", true)]
         treeRoot := none
         current := none },
        some "Kubernetes clients are not initialized yet") ∧
      (updatePodTreeView
        { ready := false
          selectedContext := "A"
          selectedNamespace := "a"
          searchText := ""
          expState := [("a", true)]
          treeRoot := none
          current := none } "q"
        ⟨.ok [], fun _ => .ok []⟩).1.treeRoot = none ∧
      (updatePodTreeView
        { ready := false
          selectedContext := "A"
          selectedNamespace := "a"
          searchText := ""
          expState := [("a", true)]
          treeRoot := none
          current := none } "q"
        ⟨.ok [], fun _ => .ok []⟩).1.current = none ∧
      (updatePodTreeView
        { ready := false
          selectedContext := "A"
          selectedNamespace := "a"
          searchText := ""
          expState := [("a", true)]
          treeRoot := none
          current := none } "q"
        ⟨.ok [], fun _ => .ok []⟩).1.expState = [("a", true)]) :=
  ⟨rfl, not_ready_no_mutation _ "q" _ rfl⟩

/-- C9: when the fetch result contains zero namespaces (also for a query that
matches nothing anywhere), the rebuilt tree is the root plus exactly the one
informational leaf, and that root is the current node — never an empty tree. -/
theorem empty_fetch_info_leaf (st : EngineState) (q : String) (api : K8sApi)
    (hready : st.ready = true)
    (hfetch : fetchNamespacesWithPods st.selectedNamespace q api = .ok []) :
    (updatePodTreeView st q api).2 = none ∧
    (updatePodTreeView st q api).1.treeRoot =
      some (.mk "Namespaces" true none (.cons infoLeaf .nil)) ∧
    (updatePodTreeView st q api).1.current =
      some (.mk "Namespaces" true none (.cons infoLeaf .nil)) := by
  rw [updatePodTreeView_ok st q api [] hready hfetch]
  rw [restorePrev_built_fallback (recordedMap st) [] (priorSelectionOf st).1
    (priorSelectionOf st).2 (by simp [keysOf]) (fun n pods h => by cases h) (Or.inr rfl)]
  exact ⟨rfl, rfl, rfl⟩

theorem empty_fetch_info_leaf_witness :
    (({ ready := true
        selectedContext := "A"
        selectedNamespace := "a"
        searchText := ""
        expState := []
        treeRoot := none
        current := none } : EngineState)).ready = true ∧
    fetchNamespacesWithPods "a" "zzz" ⟨.ok ["a"], fun _ => .ok [⟨"web-1", "a"⟩]⟩ = .ok [] ∧
    ((updatePodTreeView
        { ready := true
          selectedContext := "A"
          selectedNamespace := "a"
          searchText := ""
          expState := []
          treeRoot := none
          current := none } "zzz"
        ⟨.ok ["a"], fun _ => .ok [⟨"web-1", "a"⟩]⟩).2 = none ∧
      (updatePodTreeView
        { ready := true
          selectedContext := "A"
          selectedNamespace := "a"
          searchText := ""
          expState := []
          treeRoot := none
          current := none } "zzz"
        ⟨.ok ["a"], fun _ => .ok [⟨"web-1", "a"⟩]⟩).1.treeRoot =
        some (.mk "Namespaces" true none (.cons infoLeaf .nil)) ∧
      (updatePodTreeView
        { ready := true
          selectedContext := "A"
          selectedNamespace := "a"
          searchText := ""
          expState := []
          treeRoot := none
          current := none } "zzz"
        ⟨.ok ["a"], fun _ => .ok [⟨"web-1", "a"⟩]⟩).1.current =
        some (.mk "Namespaces" true none (.cons infoLeaf .nil))) :=
  ⟨rfl, rfl, empty_fetch_info_leaf _ "zzz" _ rfl rfl⟩

/-- C7 counterexample: a fetch computed against the old session ("old-pod"
from context A's API) whose publish phase runs after the context switch to B
is applied to the displayed tree — nothing discards it, because the code has
no generation counter to check.  The new context's API would have produced
"new-pod" instead. -/
theorem stale_fetch_applied_cex :
    fetchNamespacesWithPods "a" ""
        ⟨.ok ["a"], fun _ => .ok [⟨"old-pod", "a"⟩]⟩ = .ok [("a", [⟨"old-pod", "a"⟩])] ∧
    fetchNamespacesWithPods "a" ""
        ⟨.ok ["a"], fun _ => .ok [⟨"new-pod", "a"⟩]⟩ = .ok [("a", [⟨"new-pod", "a"⟩])] ∧
    (applyFetched
        (contextSelectHandler
          { ready := true
            selectedContext := "A"
            selectedNamespace := "a"
            searchText := ""
            expState := [("a", true)]
            treeRoot := none
            current := none } "B" (.ok ()))
        "" "" [("a", [⟨"old-pod", "a"⟩])]).treeRoot =
      some (.mk "Namespaces" true none
        (.cons (.mk "a" false none
          (.cons (.mk "Pods" true none
            (.cons (.mk "old-pod" true (some ⟨"old-pod", "a"⟩) .nil) .nil)) .nil)) .nil)) ∧
    (applyFetched
        (contextSelectHandler
          { ready := true
            selectedContext := "A"
            selectedNamespace := "a"
            searchText := ""
            expState := [("a", true)]
            treeRoot := none
            current := none } "B" (.ok ()))
        "" "" [("a", [⟨"old-pod", "a"⟩])]).selectedContext = "B" :=
  ⟨rfl, rfl, rfl, rfl⟩

/-- C7 amended: the publish phase of the pipeline performs no generation or
context check: it unconditionally applies whatever fetch result it is handed,
also directly after a context switch, and its output does not depend on the
stored context name at all (last-applied-wins). -/
theorem stale_fetch_last_write_wins (st : EngineState) (opt : String)
    (pns pname : String) (res : NsMap) :
    (applyFetched (contextSelectHandler st opt (.ok ())) pns pname res).treeRoot =
      some (restorePreviousSelection (buildTree [] res) pns pname).1 ∧
    (applyFetched (contextSelectHandler st opt (.ok ())) pns pname res).current =
      some (restorePreviousSelection (buildTree [] res) pns pname).2 ∧
    (∀ c : String, (applyFetched { st with selectedContext := c } pns pname res).treeRoot =
      (applyFetched st pns pname res).treeRoot) :=
  ⟨rfl, rfl, fun _ => rfl⟩

theorem lookupPods_applyQueryFilter_none (q : String) (m : NsMap) (x : String)
    (hnd : (keysOf m).Nodup) (h : lookupPods m x = none) :
    lookupPods (applyQueryFilter q m) x = none := by
  by_cases hq : q = ""
  · rw [applyQueryFilter_eq, if_pos hq]; exact h
  · rw [lookupPods_applyQueryFilter q m x hq hnd, h]

/-- C1: with a non-empty query, the fetch result relates to the unfiltered
fetch result namespace by namespace: each surviving entry holds exactly the
pods whose name contains the query case-insensitively (the namespace name is
never consulted), and entries with zero matching pods are dropped. -/
theorem fetch_filter_characterization (sel q : String) (api : K8sApi) (m0 : NsMap)
    (hq : q ≠ "") (h0 : fetchNamespacesWithPods sel "" api = .ok m0) :
    ∃ m, fetchNamespacesWithPods sel q api = .ok m ∧
      ∀ ns, lookupPods m ns =
        match lookupPods m0 ns with
        | some pods =>
          if (pods.filter (fun p => strContainsCI p.name q)).isEmpty then none
          else some (pods.filter (fun p => strContainsCI p.name q))
        | none => none := by
  rcases fetch_ok_cases sel "" api m0 h0 with ⟨hsel, nss, hns, hres⟩ | ⟨hsel, pods, hp, hres⟩
  · have hbase : m0 = collectAll api nss [] := by
      rw [hres, applyQueryFilter_eq, if_pos rfl]
    have hnd : (keysOf m0).Nodup := by
      rw [hbase]
      exact nodup_keysOf_collectAll api nss [] (by simp [keysOf])
    subst hsel
    refine ⟨applyQueryFilter q m0, ?_, ?_⟩
    · rw [hbase]
      exact fetch_all_ok q api nss hns
    · intro ns
      exact lookupPods_applyQueryFilter q m0 ns hq hnd
  · have hbase : m0 = (if pods.length > 0 then [(sel, pods)] else []) := by
      rw [hres, applyQueryFilter_eq, if_pos rfl]
    have hnd : (keysOf m0).Nodup := by
      rw [hbase]
      exact fetch_base_single_nodup sel pods
    refine ⟨applyQueryFilter q m0, ?_, ?_⟩
    · rw [hbase]
      exact fetch_single_ok sel q api pods hsel hp
    · intro ns
      exact lookupPods_applyQueryFilter q m0 ns hq hnd

theorem fetch_filter_characterization_witness :
    (("web" : String) ≠ "" ∧
      fetchNamespacesWithPods "all" ""
        ⟨.ok ["a", "b"],
          fun n => if n = "a" then .ok [⟨"web-1", "a"⟩, ⟨"web-2", "a"⟩]
            else .ok [⟨"cache-1", "b"⟩]⟩ =
        .ok [("a", [⟨"web-1", "a"⟩, ⟨"web-2", "a"⟩]), ("b", [⟨"cache-1", "b"⟩])]) ∧
    fetchNamespacesWithPods "all" "web"
        ⟨.ok ["a", "b"],
          fun n => if n = "a" then .ok [⟨"web-1", "a"⟩, ⟨"web-2", "a"⟩]
            else .ok [⟨"cache-1", "b"⟩]⟩ =
      .ok [("a", [⟨"web-1", "a"⟩, ⟨"web-2", "a"⟩])] ∧
    ∃ m, fetchNamespacesWithPods "all" "web"
        ⟨.ok ["a", "b"],
          fun n => if n = "a" then .ok [⟨"web-1", "a"⟩, ⟨"web-2", "a"⟩]
            else .ok [⟨"cache-1", "b"⟩]⟩ = .ok m ∧
      ∀ ns, lookupPods m ns =
        match lookupPods
            [("a", [⟨"web-1", "a"⟩, ⟨"web-2", "a"⟩]), ("b", [⟨"cache-1", "b"⟩])] ns with
        | some pods =>
          if (pods.filter (fun p => strContainsCI p.name "web")).isEmpty then none
          else some (pods.filter (fun p => strContainsCI p.name "web"))
        | none => none :=
  ⟨⟨by simp, rfl⟩, rfl,
    fetch_filter_characterization "all" "web" _ _ (by simp) rfl⟩

/-- C4: with AllNamespaces scope a per-namespace pod-list failure only skips
that namespace (the fetch still succeeds, the failed namespace is absent,
intact namespaces survive); with SingleNamespace scope a pod-list failure
fails the whole fetch with that error and no result mapping. -/
theorem fetch_error_handling (api : K8sApi) (q : String) :
    (∀ nss, api.namespacesList = .ok nss → nss.Nodup →
      (∃ m, fetchNamespacesWithPods "all" q api = .ok m) ∧
      (∀ n e m, n ∈ nss → api.podsList n = .error e →
        fetchNamespacesWithPods "all" q api = .ok m → lookupPods m n = none) ∧
      (q = "" → ∀ n pods m, n ∈ nss → api.podsList n = .ok pods → pods ≠ [] →
        fetchNamespacesWithPods "all" q api = .ok m → lookupPods m n = some pods)) ∧
    (∀ sel e, sel ≠ "all" → api.podsList sel = .error e →
      fetchNamespacesWithPods sel q api = .error e) := by
  constructor
  · intro nss hns hnd
    have hnd0 : (keysOf (collectAll api nss [])).Nodup :=
      nodup_keysOf_collectAll api nss [] (by simp [keysOf])
    have hfetch := fetch_all_ok q api nss hns
    refine ⟨⟨_, hfetch⟩, ?_, ?_⟩
    · intro n e m hn he hm
      rw [hfetch] at hm
      cases hm
      refine lookupPods_applyQueryFilter_none q _ n hnd0 ?_
      rw [lookupPods_collectAll_mem api nss [] n hnd hn, he]
      rfl
    · intro hq n pods m hn hp hne hm
      subst hq
      rw [hfetch] at hm
      cases hm
      rw [applyQueryFilter_eq, if_pos rfl,
        lookupPods_collectAll_mem api nss [] n hnd hn, hp]
      have hl : pods.length > 0 := List.length_pos.mpr hne
      simp [hl]
  · intro sel e hsel he
    exact fetch_single_error sel q api e hsel he

theorem fetch_error_handling_witness :
    ((⟨.ok ["a", "b"],
        fun n => if n = "b" then .ok [⟨"p-1", "b"⟩] else .error "boom"⟩ :
          K8sApi).namespacesList = .ok ["a", "b"] ∧
      (["a", "b"] : List String).Nodup ∧
      ("a" : String) ∈ ["a", "b"] ∧
      (⟨.ok ["a", "b"],
        fun n => if n = "b" then .ok [⟨"p-1", "b"⟩] else .error "boom"⟩ :
          K8sApi).podsList "a" = .error "boom" ∧
      fetchNamespacesWithPods "all" ""
        ⟨.ok ["a", "b"], fun n => if n = "b" then .ok [⟨"p-1", "b"⟩] else .error "boom"⟩ =
        .ok [("b", [⟨"p-1", "b"⟩])] ∧
      ("a" : String) ≠ "all" ∧
      (⟨.ok ["a", "b"],
        fun n => if n = "b" then .ok [⟨"p-1", "b"⟩] else .error "boom"⟩ :
          K8sApi).podsList "a" = .error "boom") ∧
    lookupPods [("b", [⟨"p-1", "b"⟩])] "a" = none ∧
    lookupPods [("b", [⟨"p-1", "b"⟩])] "b" = some [⟨"p-1", "b"⟩] ∧
    fetchNamespacesWithPods "a" ""
      ⟨.ok ["a", "b"], fun n => if n = "b" then .ok [⟨"p-1", "b"⟩] else .error "boom"⟩ =
      .error "boom" :=
  ⟨⟨rfl, by simp, by simp, rfl, rfl, by simp, rfl⟩,
    ((fetch_error_handling
        ⟨.ok ["a", "b"], fun n => if n = "b" then .ok [⟨"p-1", "b"⟩] else .error "boom"⟩
        "").1 ["a", "b"] rfl (by simp)).2.1 "a" "boom" [("b", [⟨"p-1", "b"⟩])]
      (by simp) rfl rfl,
    ((fetch_error_handling
        ⟨.ok ["a", "b"], fun n => if n = "b" then .ok [⟨"p-1", "b"⟩] else .error "boom"⟩
        "").1 ["a", "b"] rfl (by simp)).2.2 rfl "b" [⟨"p-1", "b"⟩] [("b", [⟨"p-1", "b"⟩])]
      (by simp) rfl (by simp) rfl,
    (fetch_error_handling
        ⟨.ok ["a", "b"], fun n => if n = "b" then .ok [⟨"p-1", "b"⟩] else .error "boom"⟩
        "").2 "a" "boom" (by simp) rfl⟩

theorem update_preserves_expDomain (st : EngineState) (q : String) (api : K8sApi)
    (k : String) (b : Bool) (hk : lookupB st.expState k = some b) :
    ∃ b2, lookupB ((updatePodTreeView st q api).1).expState k = some b2 := by
  by_cases hr : st.ready = true
  · cases hf : fetchNamespacesWithPods st.selectedNamespace q api with
    | error e =>
      rw [updatePodTreeView_fetchError st q api e hr hf]
      exact Option.isSome_iff_exists.mp (lookupB_recordedMap_isSome st k (by simp [hk]))
    | ok res =>
      rw [updatePodTreeView_ok st q api res hr hf]
      exact Option.isSome_iff_exists.mp (lookupB_recordedMap_isSome st k (by simp [hk]))
  · rw [updatePodTreeView_notready st q api (by simpa using hr)]
    exact ⟨b, hk⟩

/-- C10: a successful context switch replaces the whole expansion-state map
with a fresh empty map (no recorded flag survives), while refreshes and
namespace-scope changes never drop a recorded namespace flag. -/
theorem context_switch_clears_expansion (st : EngineState) (opt : String) :
    ((contextSelectHandler st opt (.ok ())).expState = [] ∧
      ∀ ns, lookupB (contextSelectHandler st opt (.ok ())).expState ns = none) ∧
    (∀ q api k b, lookupB st.expState k = some b →
      ∃ b2, lookupB ((updatePodTreeView st q api).1).expState k = some b2) ∧
    (∀ opt2 api k b, lookupB st.expState k = some b →
      ∃ b2, lookupB (namespaceSelectHandler st opt2 api).expState k = some b2) := by
  refine ⟨⟨rfl, fun ns => rfl⟩, ?_, ?_⟩
  · intro q api k b hk
    exact update_preserves_expDomain st q api k b hk
  · intro opt2 api k b hk
    rw [namespaceSelectHandler]
    by_cases ho : (opt2 == "Select a namespace") = true
    · rw [if_pos ho]
      exact ⟨b, hk⟩
    · rw [if_neg ho]
      exact update_preserves_expDomain
        { st with selectedNamespace := opt2, searchText := "" } "" api k b hk

theorem context_switch_clears_expansion_witness :
    ((contextSelectHandler
        { ready := true
          selectedContext := "A"
          selectedNamespace := "a"
          searchText := ""
          expState := [("a", true), ("b", false)]
          treeRoot := none
          current := none } "B" (.ok ())).expState = [] ∧
      lookupB (contextSelectHandler
        { ready := true
          selectedContext := "A"
          selectedNamespace := "a"
          searchText := ""
          expState := [("a", true), ("b", false)]
          treeRoot := none
          current := none } "B" (.ok ())).expState "a" = none) ∧
    (lookupB ([("a", true), ("b", false)] : ExpMap) "a" = some true ∧
      ∃ b2, lookupB ((updatePodTreeView
        { ready := true
          selectedContext := "A"
          selectedNamespace := "a"
          searchText := ""
          expState := [("a", true), ("b", false)]
          treeRoot := none
          current := none } "" ⟨.ok ["a"], fun _ => .ok [⟨"p-1", "a"⟩]⟩).1).expState "a" =
        some b2) ∧
    (∃ b2, lookupB (namespaceSelectHandler
        { ready := true
          selectedContext := "A"
          selectedNamespace := "a"
          searchText := ""
          expState := [("a", true), ("b", false)]
          treeRoot := none
          current := none } "b" ⟨.ok ["a"], fun _ => .ok [⟨"p-1", "a"⟩]⟩).expState "a" =
        some b2) :=
  ⟨⟨(context_switch_clears_expansion _ "B").1.1,
      (context_switch_clears_expansion _ "B").1.2 "a"⟩,
    ⟨rfl, (context_switch_clears_expansion _ "B").2.1 ""
      ⟨.ok ["a"], fun _ => .ok [⟨"p-1", "a"⟩]⟩ "a" true rfl⟩,
    (context_switch_clears_expansion _ "B").2.2 "b"
      ⟨.ok ["a"], fun _ => .ok [⟨"p-1", "a"⟩]⟩ "a" true rfl⟩

theorem text_withExpanded (c : TreeNode) (b : Bool) : (c.withExpanded b).text = c.text := by
  obtain ⟨t, e, r, cs⟩ := c
  rfl

theorem expanded_withExpanded (c : TreeNode) (b : Bool) : (c.withExpanded b).expanded = b := by
  obtain ⟨t, e, r, cs⟩ := c
  rfl

theorem ref_withExpanded (c : TreeNode) (b : Bool) : (c.withExpanded b).ref = c.ref := by
  obtain ⟨t, e, r, cs⟩ := c
  rfl

theorem children_withExpanded (c : TreeNode) (b : Bool) :
    (c.withExpanded b).children = c.children := by
  obtain ⟨t, e, r, cs⟩ := c
  rfl

theorem toList_buildChildren (m : ExpMap) (res : NsMap) (names : List String) :
    (buildChildren m res names).toList =
      names.map (fun n => nsNodeFor m n ((lookupPods res n).getD [])) := by
  induction names with
  | nil => rfl
  | cons n t ih => simp [buildChildren, TreeList.toList, ih]

theorem toList_expandNsTL (x : String) : ∀ cs : TreeList,
    (expandNsTL cs x).toList =
      cs.toList.map (fun c => if c.text == x then c.withExpanded true else c)
  | .nil => rfl
  | .cons c t => by
    simp [expandNsTL, TreeList.toList, toList_expandNsTL x t]

theorem flagInTL_expandNsTL (pns x : String) : ∀ cs : TreeList,
    flagInTL (expandNsTL cs pns) x =
      if x = pns then (flagInTL cs pns).map (fun _ => true) else flagInTL cs x
  | .nil => by
    by_cases hx : x = pns <;> simp [expandNsTL, flagInTL, hx]
  | .cons c t => by
    have ih := flagInTL_expandNsTL pns x t
    by_cases h3 : x = pns
    · subst h3
      by_cases h1 : c.text = x
      · simp [expandNsTL, flagInTL, h1, text_withExpanded, expanded_withExpanded, ih]
      · simp [expandNsTL, flagInTL, h1, ih]
    · have h3s : pns ≠ x := fun e => h3 e.symm
      by_cases h1 : c.text = pns
      · have h2 : c.text ≠ x := fun e => h3 (e.symm.trans h1)
        simp [expandNsTL, flagInTL, h1, h2, h3, h3s, text_withExpanded, ih]
      · by_cases h2 : c.text = x <;>
          simp [expandNsTL, flagInTL, h1, h2, h3, h3s, ih]

theorem restorePrev_built_cases (m : ExpMap) (res : NsMap) (pns pname : String)
    (hnd : (keysOf res).Nodup) (hw : resWellFormed res) :
    restorePreviousSelection (buildTree m res) pns pname =
        (buildTree m res, buildTree m res) ∨
    (restorePreviousSelection (buildTree m res) pns pname =
        (expandNsRoot (buildTree m res) pns, .mk pname true (some ⟨pname, pns⟩) .nil) ∧
      pname ≠ "" ∧ pns ≠ "" ∧ pns ≠ "Namespaces" ∧ hasPodIn res pns pname = true) := by
  by_cases hskip : pname = "" ∨ pns = ""
  · exact Or.inl (restorePrev_built_skip m res pns pname hskip)
  · push_neg at hskip
    by_cases hroot : pns = "Namespaces"
    · exact Or.inl (restorePrev_built_fallback m res pns pname hnd hw (Or.inl hroot))
    · by_cases hhas : hasPodIn res pns pname = true
      · exact Or.inr ⟨restorePrev_built_found m res pns pname hroot hnd hw
          hskip.1 hskip.2 hhas, hskip.1, hskip.2, hroot, hhas⟩
      · exact Or.inl (restorePrev_built_fallback m res pns pname hnd hw
          (Or.inr (by simpa using hhas)))

theorem buildTree_children_cases (m : ExpMap) (res : NsMap) :
    (buildTree m res).children = .cons infoLeaf .nil ∧ sortStrings (keysOf res) = [] ∨
    (buildTree m res).children = buildChildren m res (sortStrings (keysOf res)) ∧
      sortStrings (keysOf res) ≠ [] := by
  cases hbc : buildChildren m res (sortStrings (keysOf res)) with
  | nil =>
    left
    have hts := textsTL_buildChildren m res (sortStrings (keysOf res))
    rw [hbc] at hts
    refine ⟨?_, ?_⟩
    · rw [buildTree, hbc]
      rfl
    · rw [← hts]
      rfl
  | cons c t =>
    right
    have hts := textsTL_buildChildren m res (sortStrings (keysOf res))
    rw [hbc] at hts
    refine ⟨?_, ?_⟩
    · rw [buildTree, hbc]
      rfl
    · rw [← hts]
      simp [textsTL, TreeList.toList]

theorem nsChild_shape (m : ExpMap) (res : NsMap)
    (hne : resNonempty res) (T : TreeNode)
    (hT : T = buildTree m res ∨ ∃ pns, T = expandNsRoot (buildTree m res) pns) :
    ∀ c ∈ T.children.toList,
      c.ref = none ∧
      (c.text = "No matching pods found" ∨
        ∃ pods, lookupPods res c.text = some pods ∧ pods ≠ [] ∧
          ∃ g, c.children = .cons g .nil ∧ g.text = "Pods" ∧ g.children ≠ .nil) := by
  have hbase : ∀ c ∈ (buildTree m res).children.toList,
      c.ref = none ∧
      (c.text = "No matching pods found" ∨
        ∃ pods, lookupPods res c.text = some pods ∧ pods ≠ [] ∧
          ∃ g, c.children = .cons g .nil ∧ g.text = "Pods" ∧ g.children ≠ .nil) := by
    intro c hc
    rcases buildTree_children_cases m res with ⟨hch, hnames⟩ | ⟨hch, hnames⟩
    · rw [hch] at hc
      simp [TreeList.toList] at hc
      subst hc
      exact ⟨rfl, Or.inl rfl⟩
    · rw [hch, toList_buildChildren] at hc
      rcases List.mem_map.mp hc with ⟨n, hn, hceq⟩
      subst hceq
      have hmemk : n ∈ keysOf res := (mem_sortStrings n (keysOf res)).mp hn
      obtain ⟨pods, hpods⟩ := Option.isSome_iff_exists.mp
        ((lookupPods_isSome_iff_mem_keysOf res n).mpr hmemk)
      have hpne : pods ≠ [] := hne n pods hpods
      refine ⟨rfl, Or.inr ⟨pods, ?_, hpne, ?_⟩⟩
      · show lookupPods res (nsNodeFor m n ((lookupPods res n).getD [])).text = some pods
        rw [show (nsNodeFor m n ((lookupPods res n).getD [])).text = n from rfl]
        exact hpods
      · refine ⟨.mk "Pods" true none (buildPodNodes ((lookupPods res n).getD [])), rfl, rfl, ?_⟩
        rw [hpods]
        cases hp : pods with
        | nil => exact absurd hp hpne
        | cons p ps =>
          show TreeList.cons _ _ ≠ TreeList.nil
          exact fun hcon => TreeList.noConfusion hcon
  rcases hT with hT | ⟨pns, hT⟩
  · subst hT
    exact hbase
  · subst hT
    intro c hc
    rw [show (expandNsRoot (buildTree m res) pns).children =
        expandNsTL (buildTree m res).children pns from rfl] at hc
    rw [toList_expandNsTL] at hc
    rcases List.mem_map.mp hc with ⟨c0, hc0, hceq⟩
    rcases hbase c0 hc0 with ⟨hr0, hrest0⟩
    by_cases ht : (c0.text == pns) = true
    · rw [if_pos ht] at hceq
      subst hceq
      rw [ref_withExpanded, text_withExpanded, children_withExpanded]
      exact ⟨hr0, hrest0⟩
    · rw [if_neg ht] at hceq
      subst hceq
      exact ⟨hr0, hrest0⟩

/-- C8: every namespace entry of a successful fetch has at least one pod, and
every namespace node of the rebuilt tree (the only other children of the root
being the informational leaf) carries a non-empty "Pods" grouping child. -/
theorem nonempty_namespace_entries (st : EngineState) (q : String) (api : K8sApi)
    (res : NsMap) (hapi : apiWellFormed api) (hready : st.ready = true)
    (hfetch : fetchNamespacesWithPods st.selectedNamespace q api = .ok res) :
    (∀ n pods, lookupPods res n = some pods → pods ≠ []) ∧
    (∀ st2, updatePodTreeView st q api = (st2, none) →
      ∀ T, st2.treeRoot = some T →
        ∀ c ∈ T.children.toList,
          c.ref = none ∧
          (c.text = "No matching pods found" ∨
            ∃ pods, lookupPods res c.text = some pods ∧ pods ≠ [] ∧
              ∃ g, c.children = .cons g .nil ∧ g.text = "Pods" ∧ g.children ≠ .nil)) := by
  obtain ⟨hnd, hw, hne⟩ := fetch_ok_invariants _ q api res hapi hfetch
  refine ⟨fun n pods h => hne n pods h, ?_⟩
  intro st2 hupd T hT
  rw [updatePodTreeView_ok st q api res hready hfetch] at hupd
  injection hupd with h1 h2
  subst h1
  simp only [] at hT
  rcases restorePrev_built_cases (recordedMap st) res (priorSelectionOf st).1
      (priorSelectionOf st).2 hnd hw with hcase | ⟨hcase, _, _, _, _⟩
  · rw [hcase] at hT
    cases hT
    exact nsChild_shape (recordedMap st) res hne _ (Or.inl rfl)
  · rw [hcase] at hT
    cases hT
    exact nsChild_shape (recordedMap st) res hne _ (Or.inr ⟨_, rfl⟩)

theorem nonempty_namespace_entries_witness :
    (apiWellFormed ⟨.ok ["a"], fun n => if n = "a" then .ok [⟨"p-1", "a"⟩] else .ok []⟩ ∧
      (({ ready := true
          selectedContext := "A"
          selectedNamespace := "a"
          searchText := ""
          expState := []
          treeRoot := none
          current := none } : EngineState)).ready = true ∧
      fetchNamespacesWithPods "a" ""
        ⟨.ok ["a"], fun n => if n = "a" then .ok [⟨"p-1", "a"⟩] else .ok []⟩ =
        .ok [("a", [⟨"p-1", "a"⟩])]) ∧
    ((∀ n pods, lookupPods [("a", [⟨"p-1", "a"⟩])] n = some pods → pods ≠ []) ∧
      (∀ st2, updatePodTreeView
          { ready := true
            selectedContext := "A"
            selectedNamespace := "a"
            searchText := ""
            expState := []
            treeRoot := none
            current := none } ""
          ⟨.ok ["a"], fun n => if n = "a" then .ok [⟨"p-1", "a"⟩] else .ok []⟩ = (st2, none) →
        ∀ T, st2.treeRoot = some T →
          ∀ c ∈ T.children.toList,
            c.ref = none ∧
            (c.text = "No matching pods found" ∨
              ∃ pods, lookupPods [("a", [⟨"p-1", "a"⟩])] c.text = some pods ∧ pods ≠ [] ∧
                ∃ g, c.children = .cons g .nil ∧ g.text = "Pods" ∧ g.children ≠ .nil))) :=
  ⟨⟨by
      intro n pods h p hp
      by_cases hn : n = "a"
      · subst hn
        simp at h
        subst h
        simp at hp
        subst hp
        rfl
      · simp [hn] at h
        subst h
        simp at hp,
    rfl, rfl⟩,
    nonempty_namespace_entries _ "" _ _
      (by
        intro n pods h p hp
        by_cases hn : n = "a"
        · subst hn
          simp at h
          subst h
          simp at hp
          subst hp
          rfl
        · simp [hn] at h
          subst h
          simp at hp)
      rfl rfl⟩

theorem final_flag_of_update (st : EngineState) (q : String) (api : K8sApi) (res : NsMap)
    (ns : String) (st2 : EngineState)
    (hready : st.ready = true)
    (hfetch : fetchNamespacesWithPods st.selectedNamespace q api = .ok res)
    (hnd : (keysOf res).Nodup) (hw : resWellFormed res) (hmem : ns ∈ keysOf res)
    (hupd : updatePodTreeView st q api = (st2, none)) :
    ∃ T, st2.treeRoot = some T ∧
      (flagInTL T.children ns = some ((lookupB (recordedMap st) ns).getD false) ∨
        (ns = (priorSelectionOf st).1 ∧ flagInTL T.children ns = some true)) := by
  rw [updatePodTreeView_ok st q api res hready hfetch] at hupd
  injection hupd with h1 h2
  subst h1
  have hmemS : ns ∈ sortStrings (keysOf res) := (mem_sortStrings ns _).mpr hmem
  have hflag0 : flagInTL (buildTree (recordedMap st) res).children ns =
      some ((lookupB (recordedMap st) ns).getD false) := by
    rcases buildTree_children_cases (recordedMap st) res with ⟨hch, hnames⟩ | ⟨hch, _⟩
    · rw [hnames] at hmemS
      simp at hmemS
    · rw [hch]
      exact flagInTL_buildChildren_mem _ res _ ns hmemS
  rcases restorePrev_built_cases (recordedMap st) res (priorSelectionOf st).1
      (priorSelectionOf st).2 hnd hw with hcase | ⟨hcase, _, _, _, _⟩
  · rw [hcase]
    exact ⟨_, rfl, Or.inl hflag0⟩
  · rw [hcase]
    refine ⟨_, rfl, ?_⟩
    rw [show (expandNsRoot (buildTree (recordedMap st) res) (priorSelectionOf st).1).children
      = expandNsTL (buildTree (recordedMap st) res).children (priorSelectionOf st).1 from rfl]
    rw [flagInTL_expandNsTL]
    by_cases he : ns = (priorSelectionOf st).1
    · rw [if_pos he]
      refine Or.inr ⟨he, ?_⟩
      rw [← he, hflag0]
      rfl
    · rw [if_neg he]
      exact Or.inl hflag0

/-- C3: a namespace expanded before the refresh (its flag is recorded from the
old tree's level-1 node) that is still present in the new fetch result is
expanded in the rebuilt tree; a namespace with no recorded expansion entry is
built collapsed (as long as it is not the one force-expanded by the selection
restore). -/
theorem expansion_preservation (st : EngineState) (q : String) (api : K8sApi)
    (res : NsMap) (ns : String)
    (hapi : apiWellFormed api) (hready : st.ready = true)
    (hfetch : fetchNamespacesWithPods st.selectedNamespace q api = .ok res)
    (hmem : ns ∈ keysOf res) :
    (∀ r, st.treeRoot = some r → lastFlagIn r.children ns = some true →
      ∀ st2, updatePodTreeView st q api = (st2, none) →
        ∃ T, st2.treeRoot = some T ∧ flagInTL T.children ns = some true) ∧
    (lookupB (recordedMap st) ns = none → (priorSelectionOf st).1 ≠ ns →
      ∀ st2, updatePodTreeView st q api = (st2, none) →
        ∃ T, st2.treeRoot = some T ∧ flagInTL T.children ns = some false) := by
  obtain ⟨hnd, hw, hne⟩ := fetch_ok_invariants _ q api res hapi hfetch
  constructor
  · intro r hr hflag st2 hupd
    have hrec : lookupB (recordedMap st) ns = some true := by
      rw [recordedMap, hr, lookupB_recordNode_zero, hflag]
    obtain ⟨T, hT, hcases⟩ :=
      final_flag_of_update st q api res ns st2 hready hfetch hnd hw hmem hupd
    refine ⟨T, hT, ?_⟩
    rcases hcases with hc | ⟨_, hc⟩
    · rw [hc, hrec]
      rfl
    · exact hc
  · intro hrec hprior st2 hupd
    obtain ⟨T, hT, hcases⟩ :=
      final_flag_of_update st q api res ns st2 hready hfetch hnd hw hmem hupd
    refine ⟨T, hT, ?_⟩
    rcases hcases with hc | ⟨he, _⟩
    · rw [hc, hrec]
      rfl
    · exact absurd he.symm hprior

theorem expansion_preservation_witness :
    (apiWellFormed ⟨.ok ["a"], fun n => if n = "a" then .ok [⟨"p-1", "a"⟩] else .ok []⟩ ∧
      (({ ready := true
          selectedContext := "A"
          selectedNamespace := "a"
          searchText := ""
          expState := []
          treeRoot := some (.mk "Namespaces" true none (.cons (.mk "a" true none .nil) .nil))
          current := none } : EngineState)).ready = true ∧
      fetchNamespacesWithPods "a" ""
        ⟨.ok ["a"], fun n => if n = "a" then .ok [⟨"p-1", "a"⟩] else .ok []⟩ =
        .ok [("a", [⟨"p-1", "a"⟩])] ∧
      ("a" : String) ∈ keysOf [("a", [⟨"p-1", "a"⟩])]) ∧
    ((∀ r,
        (({ ready := true
            selectedContext := "A"
            selectedNamespace := "a"
            searchText := ""
            expState := []
            treeRoot := some (.mk "Namespaces" true none (.cons (.mk "a" true none .nil) .nil))
            current := none } : EngineState)).treeRoot = some r →
        lastFlagIn r.children "a" = some true →
        ∀ st2,
          updatePodTreeView
            { ready := true
              selectedContext := "A"
              selectedNamespace := "a"
              searchText := ""
              expState := []
              treeRoot := some (.mk "Namespaces" true none (.cons (.mk "a" true none .nil) .nil))
              current := none } ""
            ⟨.ok ["a"], fun n => if n = "a" then .ok [⟨"p-1", "a"⟩] else .ok []⟩ =
              (st2, none) →
          ∃ T, st2.treeRoot = some T ∧ flagInTL T.children "a" = some true) ∧
      (lookupB
          (recordedMap
            { ready := true
              selectedContext := "A"
              selectedNamespace := "a"
              searchText := ""
              expState := []
              treeRoot := some (.mk "Namespaces" true none (.cons (.mk "a" true none .nil) .nil))
              current := none }) "a" = none →
        (priorSelectionOf
            { ready := true
              selectedContext := "A"
              selectedNamespace := "a"
              searchText := ""
              expState := []
              treeRoot := some (.mk "Namespaces" true none (.cons (.mk "a" true none .nil) .nil))
              current := none }).1 ≠ "a" →
        ∀ st2,
          updatePodTreeView
            { ready := true
              selectedContext := "A"
              selectedNamespace := "a"
              searchText := ""
              expState := []
              treeRoot := some (.mk "Namespaces" true none (.cons (.mk "a" true none .nil) .nil))
              current := none } ""
            ⟨.ok ["a"], fun n => if n = "a" then .ok [⟨"p-1", "a"⟩] else .ok []⟩ =
              (st2, none) →
          ∃ T, st2.treeRoot = some T ∧ flagInTL T.children "a" = some false)) :=
  ⟨⟨by
      intro n pods h p hp
      by_cases hn : n = "a"
      · subst hn
        simp at h
        subst h
        simp at hp
        subst hp
        rfl
      · simp [hn] at h
        subst h
        simp at hp,
    rfl, rfl, by simp [keysOf]⟩,
    expansion_preservation _ "" _ _ "a"
      (by
        intro n pods h p hp
        by_cases hn : n = "a"
        · subst hn
          simp at h
          subst h
          simp at hp
          subst hp
          rfl
        · simp [hn] at h
          subst h
          simp at hp)
      rfl rfl (by simp [keysOf])⟩

theorem anyTL_eq_any (p : TreeNode → Bool) : ∀ cs : TreeList, anyTL p cs = cs.toList.any p
  | .nil => rfl
  | .cons c t => by simp [anyTL, TreeList.toList, anyTL_eq_any p t]

theorem toList_buildPodNodes (pods : List PodMeta) :
    (buildPodNodes pods).toList = pods.map (fun p => .mk p.name true (some p) .nil) := by
  induction pods with
  | nil => rfl
  | cons p ps ih => simp [buildPodNodes, TreeList.toList, ih]

theorem anyTL_buildPodNodes (pns pname : String) (pods : List PodMeta)
    (hw : ∀ p ∈ pods, p.ns = pns)
    (hany : pods.any (fun p => p.name == pname) = true) :
    anyTL (fun pd => podRefMatches pns pname pd) (buildPodNodes pods) = true := by
  rw [anyTL_eq_any, toList_buildPodNodes]
  rcases List.any_eq_true.mp hany with ⟨p0, hp0, hname⟩
  refine List.any_eq_true.mpr ⟨_, List.mem_map_of_mem _ hp0, ?_⟩
  show podRefMatches pns pname (.mk p0.name true (some p0) .nil) = true
  rw [podRefMatches]
  simp [TreeNode.ref, hw p0 hp0]
  simpa using hname

theorem expandedChainOK_expandNs (m : ExpMap) (res : NsMap) (pns pname : String)
    (hw : resWellFormed res)
    (hhas : hasPodIn res pns pname = true) :
    expandedChainOK (expandNsRoot (buildTree m res) pns) pns pname = true := by
  cases hlp : lookupPods res pns with
  | none =>
    rw [hasPodIn, hlp] at hhas
    cases hhas
  | some pods =>
    rw [hasPodIn, hlp] at hhas
    have hmemk : pns ∈ keysOf res :=
      (lookupPods_isSome_iff_mem_keysOf res pns).mp (by simp [hlp])
    have hmemS : pns ∈ sortStrings (keysOf res) := (mem_sortStrings _ _).mpr hmemk
    rw [expandedChainOK]
    rw [show (expandNsRoot (buildTree m res) pns).children
      = expandNsTL (buildTree m res).children pns from rfl]
    rcases buildTree_children_cases m res with ⟨hch, hnames⟩ | ⟨hch, _⟩
    · rw [hnames] at hmemS
      simp at hmemS
    · rw [hch]
      rw [anyTL_eq_any, toList_expandNsTL, toList_buildChildren]
      refine List.any_eq_true.mpr ⟨_,
        List.mem_map_of_mem _ (List.mem_map_of_mem _ hmemS), ?_⟩
    
      have htext : (nsNodeFor m pns ((lookupPods res pns).getD [])).text = pns := rfl
      rw [show (if (nsNodeFor m pns ((lookupPods res pns).getD [])).text == pns then
            (nsNodeFor m pns ((lookupPods res pns).getD [])).withExpanded true
          else nsNodeFor m pns ((lookupPods res pns).getD [])) =
          (nsNodeFor m pns ((lookupPods res pns).getD [])).withExpanded true by
        rw [htext]
        simp]
      rw [show (nsNodeFor m pns ((lookupPods res pns).getD [])).withExpanded true =
        .mk pns true none
          (.cons (.mk "Pods" true none (buildPodNodes ((lookupPods res pns).getD []))) .nil)
        from rfl]
      simp only [TreeNode.text, TreeNode.expanded, TreeNode.children, beq_self_eq_true,
        Bool.true_and, Bool.and_self, anyTL, Bool.or_false]
      rw [hlp]
      have hwpods : ∀ p ∈ pods, p.ns = pns := hw pns pods hlp
      have := anyTL_buildPodNodes pns pname pods hwpods hhas
      simp only [Option.getD] at this ⊢
      simp [anyTL, this]

/-- C2: on a rebuild with a prior pod selection, if a pod with the same
(namespace, name) identity exists in the new fetch result, its node becomes
the current node and the namespace node and its "Pods" grouping node end up
expanded; if no such pod exists, the current node is the new root.  (The
namespace-name hypotheses reflect Kubernetes naming: namespace names are
non-empty lowercase DNS labels, so they can never equal "Namespaces".) -/
theorem restore_selection_spec (st : EngineState) (q : String) (api : K8sApi)
    (res : NsMap) (cur : TreeNode) (p : PodMeta)
    (hapi : apiWellFormed api) (hready : st.ready = true)
    (hcur : st.current = some cur) (href : cur.ref = some p)
    (hn1 : p.name ≠ "") (hn2 : p.ns ≠ "") (hroot : p.ns ≠ "Namespaces")
    (hfetch : fetchNamespacesWithPods st.selectedNamespace q api = .ok res) :
    (hasPodIn res p.ns p.name = true →
      ∀ st2, updatePodTreeView st q api = (st2, none) →
        st2.current = some (.mk p.name true (some ⟨p.name, p.ns⟩) .nil) ∧
        ∃ T, st2.treeRoot = some T ∧ expandedChainOK T p.ns p.name = true) ∧
    (hasPodIn res p.ns p.name = false →
      ∀ st2, updatePodTreeView st q api = (st2, none) →
        ∃ T, st2.treeRoot = some T ∧ st2.current = some T) := by
  obtain ⟨hnd, hw, hne⟩ := fetch_ok_invariants _ q api res hapi hfetch
  have hprior : priorSelectionOf st = (p.ns, p.name) := by
    rw [priorSelectionOf, hcur]
    show (match cur.ref with
      | some pp => (pp.ns, pp.name)
      | none => ("", "")) = (p.ns, p.name)
    rw [href]
  have hp1 : (priorSelectionOf st).1 = p.ns := by rw [hprior]
  have hp2 : (priorSelectionOf st).2 = p.name := by rw [hprior]
  constructor
  · intro hhas st2 hupd
    rw [updatePodTreeView_ok st q api res hready hfetch, hp1, hp2,
      restorePrev_built_found (recordedMap st) res p.ns p.name hroot hnd hw hn1 hn2 hhas]
      at hupd
    injection hupd with h1 h2
    subst h1
    refine ⟨rfl, ⟨_, rfl, ?_⟩⟩
    exact expandedChainOK_expandNs (recordedMap st) res p.ns p.name hw hhas
  · intro hhas st2 hupd
    rw [updatePodTreeView_ok st q api res hready hfetch, hp1, hp2,
      restorePrev_built_fallback (recordedMap st) res p.ns p.name hnd hw (Or.inr hhas)]
      at hupd
    injection hupd with h1 h2
    subst h1
    exact ⟨_, rfl, rfl⟩

theorem restore_selection_spec_witness :
    (apiWellFormed ⟨.ok ["a"], fun n => if n = "a" then .ok [⟨"web-1", "a"⟩] else .ok []⟩ ∧
      (({ ready := true
          selectedContext := "A"
          selectedNamespace := "a"
          searchText := ""
          expState := []
          treeRoot := none
          current := some (.mk "web-2" true (some ⟨"web-2", "a"⟩) .nil) } :
            EngineState)).ready = true ∧
      (({ ready := true
          selectedContext := "A"
          selectedNamespace := "a"
          searchText := ""
          expState := []
          treeRoot := none
          current := some (.mk "web-2" true (some ⟨"web-2", "a"⟩) .nil) } :
            EngineState)).current = some (.mk "web-2" true (some ⟨"web-2", "a"⟩) .nil) ∧
      (TreeNode.mk "web-2" true (some ⟨"web-2", "a"⟩) .nil).ref =
        some (⟨"web-2", "a"⟩ : PodMeta) ∧
      ("web-2" : String) ≠ "" ∧ ("a" : String) ≠ "" ∧ ("a" : String) ≠ "Namespaces" ∧
      fetchNamespacesWithPods "a" ""
        ⟨.ok ["a"], fun n => if n = "a" then .ok [⟨"web-1", "a"⟩] else .ok []⟩ =
        .ok [("a", [⟨"web-1", "a"⟩])] ∧
      hasPodIn [("a", [⟨"web-1", "a"⟩])] "a" "web-2" = false) ∧
    (∀ st2, updatePodTreeView
        { ready := true
          selectedContext := "A"
          selectedNamespace := "a"
          searchText := ""
          expState := []
          treeRoot := none
          current := some (.mk "web-2" true (some ⟨"web-2", "a"⟩) .nil) } ""
        ⟨.ok ["a"], fun n => if n = "a" then .ok [⟨"web-1", "a"⟩] else .ok []⟩ =
          (st2, none) →
      ∃ T, st2.treeRoot = some T ∧ st2.current = some T) :=
  ⟨⟨by
      intro n pods h pp hp
      by_cases hn : n = "a"
      · subst hn
        simp at h
        subst h
        simp at hp
        subst hp
        rfl
      · simp [hn] at h
        subst h
        simp at hp,
    rfl, rfl, rfl, by simp, by simp, by simp, rfl, rfl⟩,
    (restore_selection_spec
      { ready := true
        selectedContext := "A"
        selectedNamespace := "a"
        searchText := ""
        expState := []
        treeRoot := none
        current := some (.mk "web-2" true (some ⟨"web-2", "a"⟩) .nil) } ""
      ⟨.ok ["a"], fun n => if n = "a" then .ok [⟨"web-1", "a"⟩] else .ok []⟩
      [("a", [⟨"web-1", "a"⟩])]
      (.mk "web-2" true (some ⟨"web-2", "a"⟩) .nil) ⟨"web-2", "a"⟩
      (by
        intro n pods h pp hp
        by_cases hn : n = "a"
        · subst hn
          simp at h
          subst h
          simp at hp
          subst hp
          rfl
        · simp [hn] at h
          subst h
          simp at hp)
      rfl rfl rfl (by simp) (by simp) (by simp) rfl).2 rfl⟩

/-! ## Stabilization of reconciliation (rebuilding from a just-recorded map) -/

theorem buildTree_ref (m : ExpMap) (res : NsMap) : (buildTree m res).ref = none := by
  rw [buildTree]
  cases buildChildren m res (sortStrings (keysOf res)) <;> rfl

theorem sortStrings_eq_nil (l : List String) (h : sortStrings l = []) : l = [] := by
  cases l with
  | nil => rfl
  | cons x t =>
    exfalso
    have : x ∈ sortStrings (x :: t) := (mem_sortStrings x _).mpr (List.mem_cons_self x t)
    rw [h] at this
    simp at this

theorem keysOf_eq_nil (res : NsMap) (h : keysOf res = []) : res = [] := by
  cases res with
  | nil => rfl
  | cons e t => simp [keysOf] at h

theorem flagInTL_none_of_notmem (x : String) : ∀ cs : TreeList,
    x ∉ textsTL cs → flagInTL cs x = none
  | .nil, _ => rfl
  | .cons c t, h => by
    have h1 : c.text ≠ x := fun e => h (by simp [textsTL, TreeList.toList, e])
    have h2 : x ∉ textsTL t := fun e => h (by
      simp only [textsTL, TreeList.toList, List.map_cons, List.mem_cons]
      exact Or.inr (by simpa [textsTL] using e))
    rw [flagInTL, if_neg (by simpa using h1), flagInTL_none_of_notmem x t h2]

theorem lastFlagIn_eq_flagInTL (x : String) : ∀ cs : TreeList,
    (textsTL cs).Nodup → lastFlagIn cs x = flagInTL cs x
  | .nil, _ => rfl
  | .cons c t, h => by
    have hcons : textsTL (.cons c t) = c.text :: textsTL t := rfl
    rw [hcons] at h
    rcases List.nodup_cons.mp h with ⟨hct, hns⟩
    rw [lastFlagIn, flagInTL, lastFlagIn_eq_flagInTL x t hns]
    by_cases hx : c.text = x
    · subst hx
      rw [flagInTL_none_of_notmem c.text t hct]
    · cases hf : flagInTL t x <;> simp [hf, hx]

theorem flagInTL_of_mem_nodup : ∀ cs : TreeList, (textsTL cs).Nodup →
    ∀ c ∈ cs.toList, flagInTL cs c.text = some c.expanded
  | .nil, _, c, hc => by simp [TreeList.toList] at hc
  | .cons d t, h, c, hc => by
    have hcons : textsTL (.cons d t) = d.text :: textsTL t := rfl
    rw [hcons] at h
    rcases List.nodup_cons.mp h with ⟨hdt, hns⟩
    rcases List.mem_cons.mp (by simpa [TreeList.toList] using hc) with hcd | hct
    · subst hcd
      rw [flagInTL]
      simp
    · have hne : d.text ≠ c.text := by
        intro e
        refine hdt (e ▸ ?_)
        simp only [textsTL, List.mem_map]
        exact ⟨c, hct, rfl⟩
      rw [flagInTL, if_neg (by simpa using hne)]
      exact flagInTL_of_mem_nodup t hns c (by simpa [TreeList.toList] using hct)

theorem textsTL_expandNsTL (x : String) : ∀ cs : TreeList,
    textsTL (expandNsTL cs x) = textsTL cs
  | .nil => rfl
  | .cons c t => by
    have hrec := textsTL_expandNsTL x t
    have e1 : textsTL (expandNsTL (.cons c t) x) =
        (if (c.text == x) = true then c.withExpanded true else c).text ::
          textsTL (expandNsTL t x) := rfl
    have e2 : textsTL (.cons c t) = c.text :: textsTL t := rfl
    rw [e1, e2, hrec]
    by_cases h : (c.text == x) = true
    · rw [if_pos h, text_withExpanded]
    · rw [if_neg h]

theorem buildChildren_congr (m m2 : ExpMap) (res : NsMap) (names : List String)
    (h : ∀ n ∈ names, (lookupB m2 n).getD false = (lookupB m n).getD false) :
    buildChildren m2 res names = buildChildren m res names := by
  induction names with
  | nil => rfl
  | cons n t ih =>
    rw [buildChildren, buildChildren, nsNodeFor, nsNodeFor,
      h n (List.mem_cons_self n t), ih (fun x hx => h x (List.mem_cons_of_mem n hx))]

theorem buildChildren_expand_eq (m m2 : ExpMap) (res : NsMap) (names : List String)
    (pns : String) (hpns : (lookupB m2 pns).getD false = true)
    (h : ∀ n ∈ names, n ≠ pns → (lookupB m2 n).getD false = (lookupB m n).getD false) :
    buildChildren m2 res names = expandNsTL (buildChildren m res names) pns := by
  induction names with
  | nil => rfl
  | cons n t ih =>
    rw [buildChildren, buildChildren, expandNsTL,
      ih (fun x hx hxp => h x (List.mem_cons_of_mem n hx) hxp)]
    by_cases hn : n = pns
    · subst hn
      rw [if_pos (by simp [nsNodeFor, TreeNode.text])]
      rw [show (nsNodeFor m n ((lookupPods res n).getD [])).withExpanded true =
        .mk n true none
          (.cons (.mk "Pods" true none (buildPodNodes ((lookupPods res n).getD []))) .nil)
        from rfl]
      rw [nsNodeFor, hpns]
    · rw [if_neg (by simp [nsNodeFor, TreeNode.text, hn]),
        nsNodeFor, nsNodeFor, h n (List.mem_cons_self n t) hn]

theorem expandNsTL_idem (x : String) : ∀ cs : TreeList,
    expandNsTL (expandNsTL cs x) x = expandNsTL cs x
  | .nil => rfl
  | .cons c t => by
    rw [expandNsTL, expandNsTL, expandNsTL_idem x t]
    by_cases h : (c.text == x) = true
    · rw [if_pos h, if_pos (by rwa [text_withExpanded])]
      obtain ⟨ct, ce, cr, cc⟩ := c
      rfl
    · rw [if_neg h, if_neg h]

theorem recordNode_zero (m : ExpMap) (n : TreeNode) :
    recordNode 0 m n = recordListExp 1 m n.children := by
  obtain ⟨t, e, r, cs⟩ := n
  rw [recordNode]
  rfl

theorem recordListExp_one_id : ∀ (cs : TreeList) (m : ExpMap),
    (∀ c ∈ cs.toList, lookupB m c.text = some c.expanded) → recordListExp 1 m cs = m
  | .nil, m, _ => rfl
  | .cons c t, m, h => by
    rw [recordListExp, recordNode_one,
      insertB_of_lookup_eq m c.text c.expanded (h c (by simp [TreeList.toList]))]
    exact recordListExp_one_id t m
      (fun d hd => h d (by simp [TreeList.toList]; exact Or.inr (by simpa using hd)))

theorem record_fixpoint (m : ExpMap) (T : TreeNode)
    (hnodup : (textsTL T.children).Nodup) :
    recordNode 0 (recordNode 0 m T) T = recordNode 0 m T := by
  rw [recordNode_zero (recordNode 0 m T) T]
  refine recordListExp_one_id T.children (recordNode 0 m T) ?_
  intro c hc
  rw [lookupB_recordNode_zero, lastFlagIn_eq_flagInTL c.text T.children hnodup,
    flagInTL_of_mem_nodup T.children hnodup c hc]

theorem buildTree_eq_of_cons (m : ExpMap) (res : NsMap) (c : TreeNode) (t : TreeList)
    (h : buildChildren m res (sortStrings (keysOf res)) = .cons c t) :
    buildTree m res = .mk "Namespaces" true none (.cons c t) := by
  rw [buildTree, h]

theorem buildTree_eq_of_nil (m : ExpMap) (res : NsMap)
    (h : buildChildren m res (sortStrings (keysOf res)) = .nil) :
    buildTree m res = .mk "Namespaces" true none (.cons infoLeaf .nil) := by
  rw [buildTree, h]

theorem stable_build_eq (m : ExpMap) (res : NsMap) (hnd : (keysOf res).Nodup) :
    buildTree (recordNode 0 m (buildTree m res)) res = buildTree m res := by
  have hndn := nodup_sortStrings _ hnd
  have hfl : ∀ n ∈ sortStrings (keysOf res),
      (lookupB (recordNode 0 m (buildTree m res)) n).getD false =
        (lookupB m n).getD false := by
    intro n hn
    rcases buildTree_children_cases m res with ⟨hch, hnames⟩ | ⟨hch, _⟩
    · rw [hnames] at hn
      simp at hn
    · rw [lookupB_recordNode_zero,
        lastFlagIn_eq_flagInTL n _ (by rw [hch, textsTL_buildChildren]; exact hndn),
        hch, flagInTL_buildChildren_mem m res _ n hn]
      rfl
  have hcongr := buildChildren_congr m (recordNode 0 m (buildTree m res)) res
    (sortStrings (keysOf res)) hfl
  cases hbase : buildChildren m res (sortStrings (keysOf res)) with
  | nil =>
    rw [buildTree_eq_of_nil _ res (by rw [hcongr, hbase]),
      buildTree_eq_of_nil m res hbase]
  | cons c t =>
    rw [buildTree_eq_of_cons _ res c t (by rw [hcongr, hbase]),
      buildTree_eq_of_cons m res c t hbase]

theorem stable_build_eq_exp (m : ExpMap) (res : NsMap) (pns : String)
    (hnd : (keysOf res).Nodup) (hmem : pns ∈ sortStrings (keysOf res)) :
    buildTree (recordNode 0 m (expandNsRoot (buildTree m res) pns)) res =
      expandNsRoot (buildTree m res) pns := by
  have hndn := nodup_sortStrings _ hnd
  rcases buildTree_children_cases m res with ⟨hch, hnames⟩ | ⟨hch, hnames⟩
  · rw [hnames] at hmem
    simp at hmem
  · have hch2 : (expandNsRoot (buildTree m res) pns).children =
        expandNsTL (buildChildren m res (sortStrings (keysOf res))) pns := by
      rw [show (expandNsRoot (buildTree m res) pns).children
        = expandNsTL (buildTree m res).children pns from rfl, hch]
    have htexts : textsTL (expandNsRoot (buildTree m res) pns).children =
        sortStrings (keysOf res) := by
      rw [hch2, textsTL_expandNsTL, textsTL_buildChildren]
    have hflpns : (lookupB (recordNode 0 m (expandNsRoot (buildTree m res) pns)) pns).getD
        false = true := by
      rw [lookupB_recordNode_zero,
        lastFlagIn_eq_flagInTL pns _ (by rw [htexts]; exact hndn), hch2,
        flagInTL_expandNsTL, if_pos rfl, flagInTL_buildChildren_mem m res _ pns hmem]
      rfl
    have hfl : ∀ n ∈ sortStrings (keysOf res), n ≠ pns →
        (lookupB (recordNode 0 m (expandNsRoot (buildTree m res) pns)) n).getD false =
          (lookupB m n).getD false := by
      intro n hn hne
      rw [lookupB_recordNode_zero,
        lastFlagIn_eq_flagInTL n _ (by rw [htexts]; exact hndn), hch2,
        flagInTL_expandNsTL, if_neg hne, flagInTL_buildChildren_mem m res _ n hn]
      rfl
    have hbc := buildChildren_expand_eq m
      (recordNode 0 m (expandNsRoot (buildTree m res) pns)) res
      (sortStrings (keysOf res)) pns hflpns hfl
    cases hbase : buildChildren m res (sortStrings (keysOf res)) with
    | nil =>
      exfalso
      have hts := textsTL_buildChildren m res (sortStrings (keysOf res))
      rw [hbase] at hts
      rw [← hts] at hmem
      simp [textsTL, TreeList.toList] at hmem
    | cons c t =>
      have hT1 := buildTree_eq_of_cons m res c t hbase
      have h2 : buildChildren (recordNode 0 m (expandNsRoot (buildTree m res) pns)) res
          (sortStrings (keysOf res)) =
          .cons (if (c.text == pns) = true then c.withExpanded true else c)
            (expandNsTL t pns) := by
        rw [hbc, hbase, expandNsTL]
      have hT2 := buildTree_eq_of_cons _ res _ _ h2
      rw [hT2, hT1]
      rfl

/-- C6 amended: reconciling twice with the same fetch result and no user
interaction leaves the current selection and the displayed tree exactly as
after the first run, and the expansion-state map reaches a fixed point at the
second run (a third run changes nothing); the map after the first and second
runs may differ (see the counterexample: run two materializes explicit
entries for namespaces the first run built with the default flag). -/
theorem reconcile_stabilization (st : EngineState) (q : String) (api : K8sApi) (res : NsMap)
    (hapi : apiWellFormed api) (hready : st.ready = true)
    (hfetch : fetchNamespacesWithPods st.selectedNamespace q api = .ok res) :
    ∃ st1 st2 st3,
      updatePodTreeView st q api = (st1, none) ∧
      updatePodTreeView st1 q api = (st2, none) ∧
      updatePodTreeView st2 q api = (st3, none) ∧
      st2.current = st1.current ∧
      st2.treeRoot = st1.treeRoot ∧
      st3.expState = st2.expState ∧
      st3.current = st2.current ∧
      st3.treeRoot = st2.treeRoot := by
  obtain ⟨hnd, hw, hne⟩ := fetch_ok_invariants _ q api res hapi hfetch
  have hndn := nodup_sortStrings _ hnd
  have hnodupT : (textsTL (buildTree (recordedMap st) res).children).Nodup := by
    rcases buildTree_children_cases (recordedMap st) res with ⟨hch, hh⟩ | ⟨hch, hh⟩
    · rw [hch]
      simp [textsTL, TreeList.toList]
    · rw [hch, textsTL_buildChildren]
      exact hndn
  rcases restorePrev_built_cases (recordedMap st) res ((priorSelectionOf st).1)
      ((priorSelectionOf st).2) hnd hw with hcase | ⟨hcase, hn1, hn2, hroot, hhas⟩
  · -- fallback branch: the root stays current and no namespace is force-expanded
    have h1 : updatePodTreeView st q api =
        ({ st with
            expState := recordedMap st
            treeRoot := some (buildTree (recordedMap st) res)
            current := some (buildTree (recordedMap st) res) }, none) := by
      rw [updatePodTreeView_ok st q api res hready hfetch, hcase]
    have hp1 : (priorSelectionOf
        ({ st with
            expState := recordedMap st
            treeRoot := some (buildTree (recordedMap st) res)
            current := some (buildTree (recordedMap st) res) } : EngineState)).1 = "" := by
      have hp : priorSelectionOf
          ({ st with
            expState := recordedMap st
            treeRoot := some (buildTree (recordedMap st) res)
            current := some (buildTree (recordedMap st) res) } : EngineState) = ("", "") := by
        rw [priorSelectionOf]
        show (match (buildTree (recordedMap st) res).ref with
          | some pp => (pp.ns, pp.name)
          | none => ("", "")) = ("", "")
        rw [buildTree_ref]
      rw [hp]
    have hp2 : (priorSelectionOf
        ({ st with
            expState := recordedMap st
            treeRoot := some (buildTree (recordedMap st) res)
            current := some (buildTree (recordedMap st) res) } : EngineState)).2 = "" := by
      have hp : priorSelectionOf
          ({ st with
            expState := recordedMap st
            treeRoot := some (buildTree (recordedMap st) res)
            current := some (buildTree (recordedMap st) res) } : EngineState) = ("", "") := by
        rw [priorSelectionOf]
        show (match (buildTree (recordedMap st) res).ref with
          | some pp => (pp.ns, pp.name)
          | none => ("", "")) = ("", "")
        rw [buildTree_ref]
      rw [hp]
    have h2 : updatePodTreeView
        ({ st with
            expState := recordedMap st
            treeRoot := some (buildTree (recordedMap st) res)
            current := some (buildTree (recordedMap st) res) } : EngineState) q api =
        ({ st with
            expState := (recordNode 0 (recordedMap st) (buildTree (recordedMap st) res))
            treeRoot := some (buildTree (recordedMap st) res)
            current := some (buildTree (recordedMap st) res) }, none) := by
      rw [updatePodTreeView_ok ({ st with
            expState := recordedMap st
            treeRoot := some (buildTree (recordedMap st) res)
            current := some (buildTree (recordedMap st) res) } : EngineState) q api res hready hfetch]
      rw [show recordedMap ({ st with
            expState := recordedMap st
            treeRoot := some (buildTree (recordedMap st) res)
            current := some (buildTree (recordedMap st) res) } : EngineState) = (recordNode 0 (recordedMap st) (buildTree (recordedMap st) res)) from rfl]
      rw [hp1, hp2]
      rw [restorePrev_built_skip (recordNode 0 (recordedMap st) (buildTree (recordedMap st) res)) res "" "" (Or.inl rfl)]
      rw [stable_build_eq (recordedMap st) res hnd]
    have hp1b : (priorSelectionOf
        ({ st with
            expState := (recordNode 0 (recordedMap st) (buildTree (recordedMap st) res))
            treeRoot := some (buildTree (recordedMap st) res)
            current := some (buildTree (recordedMap st) res) } : EngineState)).1 = "" := by
      have hp : priorSelectionOf
          ({ st with
            expState := (recordNode 0 (recordedMap st) (buildTree (recordedMap st) res))
            treeRoot := some (buildTree (recordedMap st) res)
            current := some (buildTree (recordedMap st) res) } : EngineState) = ("", "") := by
        rw [priorSelectionOf]
        show (match (buildTree (recordedMap st) res).ref with
          | some pp => (pp.ns, pp.name)
          | none => ("", "")) = ("", "")
        rw [buildTree_ref]
      rw [hp]
    have hp2b : (priorSelectionOf
        ({ st with
            expState := (recordNode 0 (recordedMap st) (buildTree (recordedMap st) res))
            treeRoot := some (buildTree (recordedMap st) res)
            current := some (buildTree (recordedMap st) res) } : EngineState)).2 = "" := by
      have hp : priorSelectionOf
          ({ st with
            expState := (recordNode 0 (recordedMap st) (buildTree (recordedMap st) res))
            treeRoot := some (buildTree (recordedMap st) res)
            current := some (buildTree (recordedMap st) res) } : EngineState) = ("", "") := by
        rw [priorSelectionOf]
        show (match (buildTree (recordedMap st) res).ref with
          | some pp => (pp.ns, pp.name)
          | none => ("", "")) = ("", "")
        rw [buildTree_ref]
      rw [hp]
    have h3 : updatePodTreeView
        ({ st with
            expState := (recordNode 0 (recordedMap st) (buildTree (recordedMap st) res))
            treeRoot := some (buildTree (recordedMap st) res)
            current := some (buildTree (recordedMap st) res) } : EngineState) q api =
        ({ st with
            expState := (recordNode 0 (recordedMap st) (buildTree (recordedMap st) res))
            treeRoot := some (buildTree (recordedMap st) res)
            current := some (buildTree (recordedMap st) res) }, none) := by
      rw [updatePodTreeView_ok ({ st with
            expState := (recordNode 0 (recordedMap st) (buildTree (recordedMap st) res))
            treeRoot := some (buildTree (recordedMap st) res)
            current := some (buildTree (recordedMap st) res) } : EngineState) q api res hready hfetch]
      rw [show recordedMap ({ st with
            expState := (recordNode 0 (recordedMap st) (buildTree (recordedMap st) res))
            treeRoot := some (buildTree (recordedMap st) res)
            current := some (buildTree (recordedMap st) res) } : EngineState) = recordNode 0 (recordNode 0 (recordedMap st) (buildTree (recordedMap st) res)) (buildTree (recordedMap st) res) from rfl]
      rw [record_fixpoint (recordedMap st) (buildTree (recordedMap st) res) hnodupT]
      rw [hp1b, hp2b]
      rw [restorePrev_built_skip (recordNode 0 (recordedMap st) (buildTree (recordedMap st) res)) res "" "" (Or.inl rfl)]
      rw [stable_build_eq (recordedMap st) res hnd]
    exact ⟨_, _, _, h1, h2, h3, rfl, rfl, rfl, rfl, rfl⟩
  · -- restored-selection branch: the found pod node stays current
    have hsome : (lookupPods res ((priorSelectionOf st).1)).isSome := by
      cases hlp : lookupPods res ((priorSelectionOf st).1) with
      | none =>
        exfalso
        rw [hasPodIn, hlp] at hhas
        simp at hhas
      | some pods => simp
    have hmemS : ((priorSelectionOf st).1) ∈ sortStrings (keysOf res) :=
      (mem_sortStrings _ _).mpr ((lookupPods_isSome_iff_mem_keysOf res _).mp hsome)
    have hnodupR : (textsTL (expandNsRoot (buildTree (recordedMap st) res) ((priorSelectionOf st).1)).children).Nodup := by
      rw [show (expandNsRoot (buildTree (recordedMap st) res) ((priorSelectionOf st).1)).children = expandNsTL (buildTree (recordedMap st) res).children ((priorSelectionOf st).1) from rfl,
        textsTL_expandNsTL]
      exact hnodupT
    have hidem : expandNsRoot (expandNsRoot (buildTree (recordedMap st) res) ((priorSelectionOf st).1)) ((priorSelectionOf st).1)
        = expandNsRoot (buildTree (recordedMap st) res) ((priorSelectionOf st).1) := by
      rw [show expandNsRoot (expandNsRoot (buildTree (recordedMap st) res) ((priorSelectionOf st).1)) ((priorSelectionOf st).1) =
        TreeNode.mk (buildTree (recordedMap st) res).text (buildTree (recordedMap st) res).expanded (buildTree (recordedMap st) res).ref
          (expandNsTL (expandNsTL (buildTree (recordedMap st) res).children ((priorSelectionOf st).1)) ((priorSelectionOf st).1)) from rfl]
      rw [expandNsTL_idem]
      rfl
    have h1 : updatePodTreeView st q api =
        ({ st with
            expState := recordedMap st
            treeRoot := some (expandNsRoot (buildTree (recordedMap st) res) ((priorSelectionOf st).1))
            current := some (TreeNode.mk ((priorSelectionOf st).2) true (some ⟨((priorSelectionOf st).2), ((priorSelectionOf st).1)⟩) TreeList.nil) }, none) := by
      rw [updatePodTreeView_ok st q api res hready hfetch, hcase]
    have h2 : updatePodTreeView
        ({ st with
            expState := recordedMap st
            treeRoot := some (expandNsRoot (buildTree (recordedMap st) res) ((priorSelectionOf st).1))
            current := some (TreeNode.mk ((priorSelectionOf st).2) true (some ⟨((priorSelectionOf st).2), ((priorSelectionOf st).1)⟩) TreeList.nil) } : EngineState) q api =
        ({ st with
            expState := (recordNode 0 (recordedMap st) (expandNsRoot (buildTree (recordedMap st) res) ((priorSelectionOf st).1)))
            treeRoot := some (expandNsRoot (buildTree (recordedMap st) res) ((priorSelectionOf st).1))
            current := some (TreeNode.mk ((priorSelectionOf st).2) true (some ⟨((priorSelectionOf st).2), ((priorSelectionOf st).1)⟩) TreeList.nil) }, none) := by
      rw [updatePodTreeView_ok ({ st with
            expState := recordedMap st
            treeRoot := some (expandNsRoot (buildTree (recordedMap st) res) ((priorSelectionOf st).1))
            current := some (TreeNode.mk ((priorSelectionOf st).2) true (some ⟨((priorSelectionOf st).2), ((priorSelectionOf st).1)⟩) TreeList.nil) } : EngineState) q api res hready hfetch]
      rw [show recordedMap ({ st with
            expState := recordedMap st
            treeRoot := some (expandNsRoot (buildTree (recordedMap st) res) ((priorSelectionOf st).1))
            current := some (TreeNode.mk ((priorSelectionOf st).2) true (some ⟨((priorSelectionOf st).2), ((priorSelectionOf st).1)⟩) TreeList.nil) } : EngineState) = (recordNode 0 (recordedMap st) (expandNsRoot (buildTree (recordedMap st) res) ((priorSelectionOf st).1))) from rfl]
      rw [show (priorSelectionOf ({ st with
            expState := recordedMap st
            treeRoot := some (expandNsRoot (buildTree (recordedMap st) res) ((priorSelectionOf st).1))
            current := some (TreeNode.mk ((priorSelectionOf st).2) true (some ⟨((priorSelectionOf st).2), ((priorSelectionOf st).1)⟩) TreeList.nil) } : EngineState)).1 = ((priorSelectionOf st).1) from rfl]
      rw [show (priorSelectionOf ({ st with
            expState := recordedMap st
            treeRoot := some (expandNsRoot (buildTree (recordedMap st) res) ((priorSelectionOf st).1))
            current := some (TreeNode.mk ((priorSelectionOf st).2) true (some ⟨((priorSelectionOf st).2), ((priorSelectionOf st).1)⟩) TreeList.nil) } : EngineState)).2 = ((priorSelectionOf st).2) from rfl]
      rw [restorePrev_built_found (recordNode 0 (recordedMap st) (expandNsRoot (buildTree (recordedMap st) res) ((priorSelectionOf st).1))) res ((priorSelectionOf st).1) ((priorSelectionOf st).2) hroot hnd hw hn1 hn2 hhas]
      rw [stable_build_eq_exp (recordedMap st) res ((priorSelectionOf st).1) hnd hmemS]
      rw [hidem]
    have h3 : updatePodTreeView
        ({ st with
            expState := (recordNode 0 (recordedMap st) (expandNsRoot (buildTree (recordedMap st) res) ((priorSelectionOf st).1)))
            treeRoot := some (expandNsRoot (buildTree (recordedMap st) res) ((priorSelectionOf st).1))
            current := some (TreeNode.mk ((priorSelectionOf st).2) true (some ⟨((priorSelectionOf st).2), ((priorSelectionOf st).1)⟩) TreeList.nil) } : EngineState) q api =
        ({ st with
            expState := (recordNode 0 (recordedMap st) (expandNsRoot (buildTree (recordedMap st) res) ((priorSelectionOf st).1)))
            treeRoot := some (expandNsRoot (buildTree (recordedMap st) res) ((priorSelectionOf st).1))
            current := some (TreeNode.mk ((priorSelectionOf st).2) true (some ⟨((priorSelectionOf st).2), ((priorSelectionOf st).1)⟩) TreeList.nil) }, none) := by
      rw [updatePodTreeView_ok ({ st with
            expState := (recordNode 0 (recordedMap st) (expandNsRoot (buildTree (recordedMap st) res) ((priorSelectionOf st).1)))
            treeRoot := some (expandNsRoot (buildTree (recordedMap st) res) ((priorSelectionOf st).1))
            current := some (TreeNode.mk ((priorSelectionOf st).2) true (some ⟨((priorSelectionOf st).2), ((priorSelectionOf st).1)⟩) TreeList.nil) } : EngineState) q api res hready hfetch]
      rw [show recordedMap ({ st with
            expState := (recordNode 0 (recordedMap st) (expandNsRoot (buildTree (recordedMap st) res) ((priorSelectionOf st).1)))
            treeRoot := some (expandNsRoot (buildTree (recordedMap st) res) ((priorSelectionOf st).1))
            current := some (TreeNode.mk ((priorSelectionOf st).2) true (some ⟨((priorSelectionOf st).2), ((priorSelectionOf st).1)⟩) TreeList.nil) } : EngineState) = recordNode 0 (recordNode 0 (recordedMap st) (expandNsRoot (buildTree (recordedMap st) res) ((priorSelectionOf st).1))) (expandNsRoot (buildTree (recordedMap st) res) ((priorSelectionOf st).1)) from rfl]
      rw [record_fixpoint (recordedMap st) (expandNsRoot (buildTree (recordedMap st) res) ((priorSelectionOf st).1)) hnodupR]
      rw [show (priorSelectionOf ({ st with
            expState := (recordNode 0 (recordedMap st) (expandNsRoot (buildTree (recordedMap st) res) ((priorSelectionOf st).1)))
            treeRoot := some (expandNsRoot (buildTree (recordedMap st) res) ((priorSelectionOf st).1))
            current := some (TreeNode.mk ((priorSelectionOf st).2) true (some ⟨((priorSelectionOf st).2), ((priorSelectionOf st).1)⟩) TreeList.nil) } : EngineState)).1 = ((priorSelectionOf st).1) from rfl]
      rw [show (priorSelectionOf ({ st with
            expState := (recordNode 0 (recordedMap st) (expandNsRoot (buildTree (recordedMap st) res) ((priorSelectionOf st).1)))
            treeRoot := some (expandNsRoot (buildTree (recordedMap st) res) ((priorSelectionOf st).1))
            current := some (TreeNode.mk ((priorSelectionOf st).2) true (some ⟨((priorSelectionOf st).2), ((priorSelectionOf st).1)⟩) TreeList.nil) } : EngineState)).2 = ((priorSelectionOf st).2) from rfl]
      rw [restorePrev_built_found (recordNode 0 (recordedMap st) (expandNsRoot (buildTree (recordedMap st) res) ((priorSelectionOf st).1))) res ((priorSelectionOf st).1) ((priorSelectionOf st).2) hroot hnd hw hn1 hn2 hhas]
      rw [stable_build_eq_exp (recordedMap st) res ((priorSelectionOf st).1) hnd hmemS]
      rw [hidem]
    exact ⟨_, _, _, h1, h2, h3, rfl, rfl, rfl, rfl, rfl⟩

/-- C6 counterexample: with no prior tree, the first reconcile leaves the
expansion map empty (nothing was recorded from the empty view), while the
second reconcile records the freshly built namespace node and materializes an
explicit collapsed entry — the two maps differ, refuting map-idempotence of
one run. -/
theorem reconcile_idempotence_cex :
    (updatePodTreeView
        { ready := true
          selectedContext := "A"
          selectedNamespace := "a"
          searchText := ""
          expState := []
          treeRoot := none
          current := none } "" ⟨.ok ["a"], fun _ => .ok [⟨"p-1", "a"⟩]⟩).1.expState = [] ∧
    (updatePodTreeView
        (updatePodTreeView
          { ready := true
            selectedContext := "A"
            selectedNamespace := "a"
            searchText := ""
            expState := []
            treeRoot := none
            current := none } "" ⟨.ok ["a"], fun _ => .ok [⟨"p-1", "a"⟩]⟩).1
        "" ⟨.ok ["a"], fun _ => .ok [⟨"p-1", "a"⟩]⟩).1.expState = [("a", false)] ∧
    ([] : ExpMap) ≠ [("a", false)] :=
  ⟨rfl, rfl, by simp⟩

theorem reconcile_stabilization_witness :
    (apiWellFormed ⟨.ok ["a"], fun n => if n = "a" then .ok [⟨"p-1", "a"⟩] else .ok []⟩ ∧
      (({ ready := true
          selectedContext := "A"
          selectedNamespace := "a"
          searchText := ""
          expState := []
          treeRoot := none
          current := none } : EngineState)).ready = true ∧
      fetchNamespacesWithPods "a" ""
        ⟨.ok ["a"], fun n => if n = "a" then .ok [⟨"p-1", "a"⟩] else .ok []⟩ =
        .ok [("a", [⟨"p-1", "a"⟩])]) ∧
    (∃ st1 st2 st3,
      updatePodTreeView
        { ready := true
          selectedContext := "A"
          selectedNamespace := "a"
          searchText := ""
          expState := []
          treeRoot := none
          current := none } ""
        ⟨.ok ["a"], fun n => if n = "a" then .ok [⟨"p-1", "a"⟩] else .ok []⟩ = (st1, none) ∧
      updatePodTreeView st1 ""
        ⟨.ok ["a"], fun n => if n = "a" then .ok [⟨"p-1", "a"⟩] else .ok []⟩ = (st2, none) ∧
      updatePodTreeView st2 ""
        ⟨.ok ["a"], fun n => if n = "a" then .ok [⟨"p-1", "a"⟩] else .ok []⟩ = (st3, none) ∧
      st2.current = st1.current ∧
      st2.treeRoot = st1.treeRoot ∧
      st3.expState = st2.expState ∧
      st3.current = st2.current ∧
      st3.treeRoot = st2.treeRoot) :=
  ⟨⟨by
      intro n pods h p hp
      by_cases hn : n = "a"
      · subst hn
        simp at h
        subst h
        simp at hp
        subst hp
        rfl
      · simp [hn] at h
        subst h
        simp at hp,
    rfl, rfl⟩,
    reconcile_stabilization _ "" _ _
      (by
        intro n pods h p hp
        by_cases hn : n = "a"
        · subst hn
          simp at h
          subst h
          simp at hp
          subst hp
          rfl
        · simp [hn] at h
          subst h
          simp at hp)
      rfl rfl⟩
